import Mathlib

/-!
Verification of the protocol-translation core of `server.py`:
a shallow embedding of `parse_tool_result_content`,
`convert_anthropic_to_litellm`, `convert_litellm_to_anthropic` and
`handle_streaming`, together with theorems settling the spec claims.
-/

namespace Srv

/-- A model of the Python values that flow through the converter:
`None`, `str`, `list`, `dict` (string keys), `int` and `bool`. -/
inductive PyVal where
  | none
  | str (s : String)
  | list (xs : List PyVal)
  | dict (kvs : List (String × PyVal))
  | int (n : Int)
  | float (lex : String)
  | bool (b : Bool)
deriving BEq, Repr

/-- The whitespace characters stripped by Python's `str.strip()`. -/
def isPySpace (c : Char) : Bool :=
  c = ' ' || c = Char.ofNat 9 || c = Char.ofNat 10 || c = Char.ofNat 13
    || c = Char.ofNat 11 || c = Char.ofNat 12

/-- Python `str.strip()` on the character list. -/
def pyStripList (cs : List Char) : List Char :=
  ((cs.dropWhile isPySpace).reverse.dropWhile isPySpace).reverse

/-- Python `str.strip()`. -/
def pyStrip (s : String) : String :=
  String.mk (pyStripList s.data)

/-- Whether a string ends in a whitespace character. -/
def hasTrailingWS (s : String) : Bool :=
  match s.data.reverse.head? with
  | some c => isPySpace c
  | Option.none => false

/-- Python `dict.get(k)`: first binding wins in this model. -/
def dictFind (kvs : List (String × PyVal)) (k : String) : Option PyVal :=
  (kvs.find? (fun p => p.fst == k)).map Prod.snd

/-- Python `dict.get(k, default)`. -/
def dictGetD (kvs : List (String × PyVal)) (k : String) (d : PyVal) : PyVal :=
  (dictFind kvs k).getD d

/-- Python `value == "text"`: true exactly when the value is the
string `"text"`. -/
def isTextTag (v : Option PyVal) : Bool :=
  match v with
  | some (.str t) => t == "text"
  | _ => false

/-- JSON string escaping as performed by `json.dumps`. -/
def jsonEscapeChar (c : Char) : String :=
  if c = Char.ofNat 34 then "\\\""
  else if c = Char.ofNat 92 then "\\\\"
  else if c = Char.ofNat 10 then "\\n"
  else if c = Char.ofNat 13 then "\\r"
  else if c = Char.ofNat 9 then "\\t"
  else String.singleton c

/-- A JSON-quoted string literal. -/
def jsonQuote (s : String) : String :=
  "\"" ++ String.join (s.data.map jsonEscapeChar) ++ "\""

mutual

/-- `json.dumps` with default separators, on the value model. -/
def jsonDumps : PyVal → String
  | .none => "null"
  | .bool true => "true"
  | .bool false => "false"
  | .int n => toString n
  | .float lex => lex
  | .str s => jsonQuote s
  | .list xs => "[" ++ jsonDumpsItems xs ++ "]"
  | .dict kvs => "\x7b" ++ jsonDumpsPairs kvs ++ "\x7d"

/-- Comma-separated `json.dumps` of list items. -/
def jsonDumpsItems : List PyVal → String
  | [] => ""
  | [x] => jsonDumps x
  | x :: y :: xs => jsonDumps x ++ ", " ++ jsonDumpsItems (y :: xs)

/-- Comma-separated `json.dumps` of dict entries. -/
def jsonDumpsPairs : List (String × PyVal) → String
  | [] => ""
  | [(k, v)] => jsonQuote k ++ ": " ++ jsonDumps v
  | (k, v) :: p :: kvs => jsonQuote k ++ ": " ++ jsonDumps v ++ ", " ++ jsonDumpsPairs (p :: kvs)

end

/-- A single-quote character, used by Python `repr`. -/
def squote : String := String.singleton (Char.ofNat 39)

mutual

/-- Python `repr` on the value model. -/
def pyRepr : PyVal → String
  | .none => "None"
  | .bool true => "True"
  | .bool false => "False"
  | .int n => toString n
  | .float lex => lex
  | .str s => squote ++ s ++ squote
  | .list xs => "[" ++ pyReprItems xs ++ "]"
  | .dict kvs => "\x7b" ++ pyReprPairs kvs ++ "\x7d"

/-- Comma-separated `repr` of list items. -/
def pyReprItems : List PyVal → String
  | [] => ""
  | [x] => pyRepr x
  | x :: y :: xs => pyRepr x ++ ", " ++ pyReprItems (y :: xs)

/-- Comma-separated `repr` of dict entries. -/
def pyReprPairs : List (String × PyVal) → String
  | [] => ""
  | [(k, v)] => squote ++ k ++ squote ++ ": " ++ pyRepr v
  | (k, v) :: p :: kvs => squote ++ k ++ squote ++ ": " ++ pyRepr v ++ ", " ++ pyReprPairs (p :: kvs)

end

/-- Python `str()` on the value model (containers print via `repr`). -/
def pyStr : PyVal → String
  | .none => "None"
  | .bool true => "True"
  | .bool false => "False"
  | .int n => toString n
  | .float lex => lex
  | .str s => s
  | .list xs => pyRepr (.list xs)
  | .dict kvs => pyRepr (.dict kvs)

/-- One iteration of the list loop of `parse_tool_result_content`
(server.py lines 374-391).  `result += item.get("text", "") + "\n"`
raises an uncaught `TypeError` when the `text` value is not a string;
that raise is modelled by `Except.error`. -/
def parseToolResultItem (acc : String) (item : PyVal) : Except Unit String :=
  match item with
  | .dict kvs =>
    if isTextTag (dictFind kvs "type") then
      match dictGetD kvs "text" (.str "") with
      | .str t => .ok (acc ++ t ++ "\n")
      | _ => .error ()
    else if (dictFind kvs "text").isSome then
      match dictGetD kvs "text" (.str "") with
      | .str t => .ok (acc ++ t ++ "\n")
      | _ => .error ()
    else
      .ok (acc ++ jsonDumps (.dict kvs) ++ "\n")
  | .str s => .ok (acc ++ s ++ "\n")
  | other => .ok (acc ++ pyStr other ++ "\n")

/-- `parse_tool_result_content` (server.py lines 364-406).  The Python
function is dynamically typed: the dict branch returns the raw `text`
value (which need not be a string), and the list branch can raise a
`TypeError`; so the model returns `Except Unit PyVal`. -/
def parse_tool_result_content : PyVal → Except Unit PyVal
  | .none => .ok (.str "No content provided")
  | .str s => .ok (.str s)
  | .list xs =>
    match xs.foldlM parseToolResultItem "" with
    | .ok r => .ok (.str (pyStrip r))
    | .error e => .error e
  | .dict kvs =>
    if isTextTag (dictFind kvs "type") then
      .ok (dictGetD kvs "text" (.str ""))
    else
      .ok (.str (jsonDumps (.dict kvs)))
  | other => .ok (.str (pyStr other))

/-! ## A model of `json.loads`

Used by the response mapper to parse tool-call argument strings.  The
parser follows the JSON grammar accepted by Python's `json.loads`
(strings with the common escapes, integers, fraction/exponent numbers,
arrays, objects, literals); recursion is bounded by a fuel argument
amply larger than the input length. -/

/-- Skip the JSON whitespace characters. -/
def skipJsonWs (cs : List Char) : List Char :=
  cs.dropWhile (fun c => c = ' ' || c = Char.ofNat 9 || c = Char.ofNat 10 || c = Char.ofNat 13)

/-- Translate a JSON escape character (the letter after a backslash). -/
def jsonUnescape (c : Char) : Option Char :=
  if c = Char.ofNat 34 then some (Char.ofNat 34)
  else if c = Char.ofNat 92 then some (Char.ofNat 92)
  else if c = '/' then some '/'
  else if c = 'n' then some (Char.ofNat 10)
  else if c = 't' then some (Char.ofNat 9)
  else if c = 'r' then some (Char.ofNat 13)
  else if c = 'b' then some (Char.ofNat 8)
  else if c = 'f' then some (Char.ofNat 12)
  else Option.none

/-- Parse the body of a JSON string after the opening quote; returns the
decoded string and the remaining characters after the closing quote.
`\uXXXX` escapes are not in the modelled fragment. -/
def parseJsonStringAux : List Char → Option (String × List Char)
  | [] => Option.none
  | c :: rest =>
    if c = Char.ofNat 34 then some ("", rest)
    else if c = Char.ofNat 92 then
      match rest with
      | [] => Option.none
      | e :: rest2 =>
        match jsonUnescape e, parseJsonStringAux rest2 with
        | some u, some p => some (String.singleton u ++ p.1, p.2)
        | _, _ => Option.none
    else
      match parseJsonStringAux rest with
      | some p => some (String.singleton c ++ p.1, p.2)
      | Option.none => Option.none

/-- Parse the integer part of a JSON number (JSON forbids leading zeros). -/
def parseJsonIntPart (cs : List Char) : Option (List Char × List Char) :=
  match cs with
  | [] => Option.none
  | c :: rest =>
    if c = '0' then some ([c], rest)
    else if c.isDigit then some (c :: rest.takeWhile Char.isDigit, rest.dropWhile Char.isDigit)
    else Option.none

/-- Parse a JSON number, yielding `.int` for integral lexemes and
`.float` (carrying the lexeme) when a fraction or exponent is present. -/
def parseJsonNumber (cs : List Char) : Option (PyVal × List Char) :=
  let (neg, cs1) :=
    match cs with
    | c :: rest => if c = '-' then (true, rest) else (false, cs)
    | [] => (false, cs)
  match parseJsonIntPart cs1 with
  | Option.none => Option.none
  | some (ip, rest1) =>
    let (fracPart, rest2) :=
      match rest1 with
      | '.' :: r =>
        let ds := r.takeWhile Char.isDigit
        if ds.isEmpty then ([], rest1) else ('.' :: ds, r.dropWhile Char.isDigit)
      | _ => ([], rest1)
    let (expPart, rest3) :=
      match rest2 with
      | e :: r =>
        if e = 'e' || e = 'E' then
          let (sgn, r2) :=
            match r with
            | s :: rr => if s = '+' || s = '-' then ([s], rr) else ([], r)
            | [] => ([], r)
          let ds := r2.takeWhile Char.isDigit
          if ds.isEmpty then ([], rest2) else (e :: (sgn ++ ds), r2.dropWhile Char.isDigit)
        else ([], rest2)
      | [] => ([], rest2)
    let signChars : List Char := if neg then ['-'] else []
    if fracPart.isEmpty && expPart.isEmpty then
      match (String.mk ip).toNat? with
      | some n => some (.int (if neg then -(n : Int) else (n : Int)), rest1)
      | Option.none => Option.none
    else
      some (.float (String.mk (signChars ++ ip ++ fracPart ++ expPart)), rest3)

mutual

/-- Parse one JSON value; fuel bounds the recursion. -/
def jsonVal : Nat → List Char → Option (PyVal × List Char)
  | 0, _ => Option.none
  | Nat.succ f, cs =>
    match skipJsonWs cs with
    | [] => Option.none
    | c :: rest =>
      if c = Char.ofNat 34 then
        match parseJsonStringAux rest with
        | some p => some (.str p.1, p.2)
        | Option.none => Option.none
      else if c = '[' then jsonArr f rest
      else if c = Char.ofNat 123 then jsonObj f rest
      else if c = 't' then
        match rest with
        | 'r' :: 'u' :: 'e' :: rest2 => some (.bool true, rest2)
        | _ => Option.none
      else if c = 'f' then
        match rest with
        | 'a' :: 'l' :: 's' :: 'e' :: rest2 => some (.bool false, rest2)
        | _ => Option.none
      else if c = 'n' then
        match rest with
        | 'u' :: 'l' :: 'l' :: rest2 => some (.none, rest2)
        | _ => Option.none
      else parseJsonNumber (c :: rest)

/-- Parse the items of a JSON array after the opening bracket. -/
def jsonArr : Nat → List Char → Option (PyVal × List Char)
  | 0, _ => Option.none
  | Nat.succ f, cs =>
    match skipJsonWs cs with
    | ']' :: rest => some (.list [], rest)
    | _ =>
      match jsonVal f cs with
      | some (v, rest1) =>
        match skipJsonWs rest1 with
        | ',' :: rest2 =>
          match jsonArr f rest2 with
          | some (.list vs, rest3) => some (.list (v :: vs), rest3)
          | _ => Option.none
        | ']' :: rest2 => some (.list [v], rest2)
        | _ => Option.none
      | Option.none => Option.none

/-- Parse the entries of a JSON object after the opening brace. -/
def jsonObj : Nat → List Char → Option (PyVal × List Char)
  | 0, _ => Option.none
  | Nat.succ f, cs =>
    match skipJsonWs cs with
    | c :: rest =>
      if c = Char.ofNat 125 then some (.dict [], rest)
      else if c = Char.ofNat 34 then
        match parseJsonStringAux rest with
        | some (k, rest1) =>
          match skipJsonWs rest1 with
          | ':' :: rest2 =>
            match jsonVal f rest2 with
            | some (v, rest3) =>
              match skipJsonWs rest3 with
              | ',' :: rest4 =>
                match jsonObj f rest4 with
                | some (.dict kvs, rest5) => some (.dict ((k, v) :: kvs), rest5)
                | _ => Option.none
              | c2 :: rest4 =>
                if c2 = Char.ofNat 125 then some (.dict [(k, v)], rest4) else Option.none
              | [] => Option.none
            | Option.none => Option.none
          | _ => Option.none
        | Option.none => Option.none
      else Option.none
    | [] => Option.none

end

/-- `json.loads`: the whole input must be one JSON value, up to
surrounding whitespace. -/
def jsonLoads (s : String) : Option PyVal :=
  match jsonVal (2 * s.length + 8) s.data with
  | some (v, rest) => if (skipJsonWs rest).isEmpty then some v else Option.none
  | Option.none => Option.none

/-! ## `convert_litellm_to_anthropic` (server.py lines 628-805)

The downstream response is modelled in the already-extracted shape the
two probing paths of the source converge to (lines 645-678): message
text, tool calls, finish reason (`none` when absent in the typed shape;
the dict path defaults it to `"stop"` before reaching the mapper),
usage counts and a response id.  The generated fallback ids (uuids) are
modelled by fixed placeholder strings. -/

/-- One downstream tool call: id (possibly absent), function name and
the argument payload (a string in the wire format). -/
structure LLToolCall where
  id : Option String
  name : String
  arguments : PyVal
deriving BEq, Repr

/-- The extracted downstream (Protocol B) response. -/
structure LLResponse where
  contentText : Option String
  toolCalls : List LLToolCall
  finishReason : Option String
  promptTokens : Nat
  completionTokens : Nat
  respId : String
deriving BEq, Repr

/-- A content block of the Protocol-A response (only these two variants
are producible, per the data model). -/
inductive RespBlock where
  | text (t : String)
  | toolUse (id : String) (name : String) (input : PyVal)
deriving BEq, Repr

/-- The Protocol-A response produced by the response mapper. -/
structure AnthropicResponse where
  respId : String
  model : String
  content : List RespBlock
  stopReason : String
  inputTokens : Nat
  outputTokens : Nat
deriving BEq, Repr

/-- Python `str.startswith`, computed on the character list. -/
def strStarts (s pre : String) : Bool :=
  pre.data.isPrefixOf s.data

/-- Python slicing `s[n:]`, computed on the character list. -/
def strDrop (s : String) (n : Nat) : String :=
  String.mk (s.data.drop n)

/-- The model-name prefix stripping duplicated at server.py lines
556-560 and 635-639. -/
def cleanModelName (model : String) : String :=
  if strStarts model "anthropic/" then strDrop model 10
  else if strStarts model "openai/" then strDrop model 7
  else model

/-- The finish-reason table of the response mapper (lines 776-785). -/
def mapStopReasonResponse (finishReason : Option String) : String :=
  if finishReason = some "stop" then "end_turn"
  else if finishReason = some "length" then "max_tokens"
  else if finishReason = some "tool_calls" then "tool_use"
  else "end_turn"

/-- The finish-reason mapping of the streaming transcoder
(lines 1086-1093). -/
def mapStopReasonStreaming (finishReason : String) : String :=
  if finishReason = "length" then "max_tokens"
  else if finishReason = "tool_calls" then "tool_use"
  else if finishReason = "stop" then "end_turn"
  else "end_turn"

/-- Lines 710-716: parse the argument string as JSON, falling back to
`\x7b"raw": original\x7d`; a non-string payload is used as-is. -/
def toolCallInput (arguments : PyVal) : PyVal :=
  match arguments with
  | .str s =>
    match jsonLoads s with
    | some v => v
    | Option.none => .dict [("raw", .str s)]
  | v => v

/-- Lines 695-725: one tool call becomes a `tool_use` block. -/
def toolUseBlockOfCall (tc : LLToolCall) : RespBlock :=
  .toolUse (tc.id.getD "tool_generated") tc.name (toolCallInput tc.arguments)

/-- Indentation used by `json.dumps(..., indent=2)`. -/
def indentStr (lvl : Nat) : String :=
  String.join (List.replicate (2 * lvl) " ")

mutual

/-- `json.dumps(v, indent=2)` at a nesting level. -/
def jsonDumpsInd : Nat → PyVal → String
  | _, .none => "null"
  | _, .bool true => "true"
  | _, .bool false => "false"
  | _, .int n => toString n
  | _, .float lex => lex
  | _, .str s => jsonQuote s
  | _, .list [] => "[]"
  | lvl, .list (x :: xs) =>
    "[\n" ++ jsonDumpsIndItems (lvl + 1) (x :: xs) ++ "\n" ++ indentStr lvl ++ "]"
  | _, .dict [] => "\x7b\x7d"
  | lvl, .dict (p :: kvs) =>
    "\x7b\n" ++ jsonDumpsIndPairs (lvl + 1) (p :: kvs) ++ "\n" ++ indentStr lvl ++ "\x7d"

/-- Indented items of a JSON array. -/
def jsonDumpsIndItems : Nat → List PyVal → String
  | _, [] => ""
  | lvl, [x] => indentStr lvl ++ jsonDumpsInd lvl x
  | lvl, x :: y :: xs =>
    indentStr lvl ++ jsonDumpsInd lvl x ++ ",\n" ++ jsonDumpsIndItems lvl (y :: xs)

/-- Indented entries of a JSON object. -/
def jsonDumpsIndPairs : Nat → List (String × PyVal) → String
  | _, [] => ""
  | lvl, [(k, v)] => indentStr lvl ++ jsonQuote k ++ ": " ++ jsonDumpsInd lvl v
  | lvl, (k, v) :: p :: kvs =>
    indentStr lvl ++ jsonQuote k ++ ": " ++ jsonDumpsInd lvl v ++ ",\n"
      ++ jsonDumpsIndPairs lvl (p :: kvs)

end

/-- Lines 737-760: one tool call rendered as plain text for model
families without first-class tool blocks. -/
def toolTextOfCall (tc : LLToolCall) : String :=
  let argumentsStr :=
    match tc.arguments with
    | .str s =>
      match jsonLoads s with
      | some v => jsonDumpsInd 0 v
      | Option.none => s
    | v => jsonDumpsInd 0 v
  "Tool: " ++ tc.name ++ "\nArguments: " ++ argumentsStr ++ "\n\n"

/-- `convert_litellm_to_anthropic` (lines 628-805) on the extracted
response shape. -/
def convert_litellm_to_anthropic (r : LLResponse) (originalModel : String) : AnthropicResponse :=
  let cleanModel := cleanModelName originalModel
  let isClaudeModel := strStarts cleanModel "claude-"
  let content0 : List RespBlock :=
    match r.contentText with
    | some t => if t = "" then [] else [.text t]
    | Option.none => []
  let content1 : List RespBlock :=
    if !r.toolCalls.isEmpty && isClaudeModel then
      content0 ++ r.toolCalls.map toolUseBlockOfCall
    else if !r.toolCalls.isEmpty then
      let toolText := "\n\nTool usage:\n" ++ String.join (r.toolCalls.map toolTextOfCall)
      match content0 with
      | .text t :: rest => .text (t ++ toolText) :: rest
      | blocks => blocks ++ [.text toolText]
    else content0
  let content2 := if content1.isEmpty then [.text ""] else content1
  { respId := r.respId
    model := originalModel
    content := content2
    stopReason := mapStopReasonResponse r.finishReason
    inputTokens := r.promptTokens
    outputTokens := r.completionTokens }

/-! ## `convert_anthropic_to_litellm` (server.py lines 408-626)

The Protocol-A request is modelled with the fields the message/token
logic reads; the remaining request fields (temperature, stop sequences,
top-p, top-k, tools, tool-choice) are independent verbatim
pass-throughs or separate rewrites that no claim touches, and are not
part of this slice. -/

/-- A Protocol-A content block (pydantic `ContentBlock*` models).
`toolResult` content is an arbitrary payload (`Any`). -/
inductive AContentBlock where
  | text (t : String)
  | image (source : PyVal)
  | toolUse (id : String) (name : String) (input : PyVal)
  | toolResult (toolUseId : String) (content : PyVal)
deriving BEq, Repr

/-- A Protocol-A message: role and plain-text or block content. -/
structure AMessage where
  role : String
  content : Sum String (List AContentBlock)
deriving BEq, Repr

/-- The optional system prompt: plain text or text segments. -/
inductive SystemPromptV where
  | str (s : String)
  | blocks (texts : List String)
deriving BEq, Repr

/-- The slice of pydantic `MessagesRequest` the converter reads. -/
structure MessagesRequest where
  model : String
  maxTokens : Nat
  messages : List AMessage
  system : Option SystemPromptV
  stream : Bool
  reasoningEffort : Option String
deriving BEq, Repr

/-- Downstream message content: a flat string or content parts. -/
inductive LLContent where
  | str (s : String)
  | parts (xs : List PyVal)
deriving BEq, Repr

/-- One downstream (Protocol B) message. -/
structure LLMessage where
  role : String
  content : LLContent
deriving BEq, Repr

/-- The downstream request slice built by the converter. -/
structure LiteLLMRequest where
  model : String
  messages : List LLMessage
  maxTokens : Nat
  stream : Bool
  reasoningEffort : Option String
deriving BEq, Repr

/-- Whether `needle` occurs as a substring (Python `in`). -/
def listContainsSub (needle : List Char) : List Char → Bool
  | [] => needle.isEmpty
  | c :: rest => needle.isPrefixOf (c :: rest) || listContainsSub needle rest

/-- Python `needle in hay` on strings. -/
def strContainsSub (hay needle : String) : Bool :=
  listContainsSub needle.data hay.data

/-- One iteration of the tool-result list loop (lines 462-475): typed
text and dict items contribute text or serialized JSON, with an
uncaught `TypeError` when a dict's `text` value is not a string;
non-dict items contribute nothing (the loop has no else branch). -/
def toolResultListItem (acc : String) (item : PyVal) : Except Unit String :=
  match item with
  | .dict kvs =>
    if isTextTag (dictFind kvs "type") then
      match dictGetD kvs "text" (.str "") with
      | .str t => .ok (acc ++ t ++ "\n")
      | _ => .error ()
    else if (dictFind kvs "text").isSome then
      match dictGetD kvs "text" (.str "") with
      | .str t => .ok (acc ++ t ++ "\n")
      | _ => .error ()
    else
      .ok (acc ++ jsonDumps (.dict kvs) ++ "\n")
  | _ => .ok acc

/-- Normalization of a tool-result payload to text inside the user
branch (lines 456-490).  The dict and fallback branches feed an
f-string, which coerces any value with `str()`. -/
def toolResultContentText (c : PyVal) : Except Unit String :=
  match c with
  | .str s => .ok s
  | .list items => items.foldlM toolResultListItem ""
  | .dict kvs =>
    if isTextTag (dictFind kvs "type") then
      .ok (pyStr (dictGetD kvs "text" (.str "")))
    else
      .ok (jsonDumps (.dict kvs))
  | other => .ok (pyStr other)

/-- The fragment one block contributes to a user message with tool
results (lines 447-493); blocks other than text and tool_result
contribute nothing. -/
def userToolResultFragment (b : AContentBlock) : Except Unit String :=
  match b with
  | .text t => .ok (t ++ "\n")
  | .toolResult id c =>
    match toolResultContentText c with
    | .ok rc => .ok ("Tool result for " ++ id ++ ":\n" ++ rc ++ "\n")
    | .error e => .error e
  | _ => .ok ""

/-- The accumulated `text_content` of the user/tool-result branch
(the `for block in content` loop, lines 447-493). -/
def buildUserToolText (acc : String) : List AContentBlock → Except Unit String
  | [] => .ok acc
  | b :: rest =>
    match userToolResultFragment b with
    | .ok fr => buildUserToolText (acc ++ fr) rest
    | .error e => .error e

/-- Line 442: whether any block of the content is a tool_result. -/
def hasToolResultBlock (blocks : List AContentBlock) : Bool :=
  blocks.any (fun b =>
    match b with
    | .toolResult _ _ => true
    | _ => false)

/-- Block-by-block translation of non-tool-result block content
(lines 498-536). -/
def processBlock (b : AContentBlock) : PyVal :=
  match b with
  | .text t => .dict [("type", .str "text"), ("text", .str t)]
  | .image source => .dict [("type", .str "image"), ("source", source)]
  | .toolUse id name input =>
    .dict [("type", .str "tool_use"), ("id", .str id), ("name", .str name), ("input", input)]
  | .toolResult id c =>
    let contentVal : PyVal :=
      match c with
      | .str s => .list [.dict [("type", .str "text"), ("text", .str s)]]
      | .list items => .list items
      | other => .list [.dict [("type", .str "text"), ("text", .str (pyStr other))]]
    .dict [("type", .str "tool_result"), ("tool_use_id", .str id), ("content", contentVal)]

/-- Translation of one Protocol-A message (lines 434-538): plain text
passes through; a user message containing a tool_result block becomes
one flat user text message; anything else is translated block by
block. -/
def convertOneMessage (msg : AMessage) : Except Unit LLMessage :=
  match msg.content with
  | .inl s => .ok ⟨msg.role, .str s⟩
  | .inr blocks =>
    if msg.role == "user" && hasToolResultBlock blocks then
      match buildUserToolText "" blocks with
      | .ok t => .ok ⟨"user", .str (pyStrip t)⟩
      | .error e => .error e
    else
      .ok ⟨msg.role, .parts (blocks.map processBlock)⟩

/-- Translation of the message list in order; a raising message aborts
the whole conversion (the source loop is inside no try block). -/
def convertMessages : List AMessage → Except Unit (List LLMessage)
  | [] => .ok []
  | m :: rest =>
    match convertOneMessage m with
    | .error e => .error e
    | .ok lm =>
      match convertMessages rest with
      | .error e => .error e
      | .ok lms => .ok (lm :: lms)

/-- The leading system message, if any (lines 416-431). -/
def systemMessages : Option SystemPromptV → List LLMessage
  | Option.none => []
  | some (.str s) => [⟨"system", .str s⟩]
  | some (.blocks texts) =>
    let t := String.join (texts.map (fun x => x ++ "\n\n"))
    if t == "" then [] else [⟨"system", .str (pyStrip t)⟩]

/-- The reasoning-effort field of the downstream request (lines
562-569): a truthy caller value is forwarded; otherwise models whose
cleaned name contains `o3-` or `o1` get the default `"high"`. -/
def reasoningEffortField (reasoningEffort : Option String) (cleanModel : String) : Option String :=
  match reasoningEffort with
  | some e =>
    if e != "" then some e
    else if strContainsSub cleanModel "o3-" || strContainsSub cleanModel "o1" then some "high"
    else Option.none
  | Option.none =>
    if strContainsSub cleanModel "o3-" || strContainsSub cleanModel "o1" then some "high"
    else Option.none

/-- `convert_anthropic_to_litellm` (lines 408-626) on the modelled
slice; `useOpenaiModels` is the `USE_OPENAI_MODELS` module flag. -/
def convert_anthropic_to_litellm (req : MessagesRequest) (useOpenaiModels : Bool) :
    Except Unit LiteLLMRequest :=
  match convertMessages req.messages with
  | .error e => .error e
  | .ok msgs =>
    .ok
      { model := req.model
        messages := systemMessages req.system ++ msgs
        maxTokens :=
          if strStarts req.model "openai/" || useOpenaiModels then min req.maxTokens 16384
          else req.maxTokens
        stream := req.stream
        reasoningEffort := reasoningEffortField req.reasoningEffort (cleanModelName req.model) }

/-! ## `handle_streaming` (server.py lines 884-1161)

The async generator is modelled as a function from the finite list of
downstream chunks to the list of emitted Protocol-A events.  A chunk
whose per-chunk processing raises is modelled by `Chunk.malformed`
(caught and skipped, lines 1107-1110).  A fatal failure of the chunk
source itself after the listed chunks is modelled by the `genRaises`
flag (the outer except, lines 1133-1161).  Generated uuids are modelled
by a fixed placeholder id. -/

/-- One downstream tool-call delta: call index, optional id, function
name (the source defaults a missing name to `""`) and the argument
fragment (`""` when absent — Python truthiness skips empty
fragments). -/
structure ToolCallDelta where
  index : Nat
  id : Option String
  name : String
  arguments : String
deriving BEq, Repr

/-- The delta of the first choice of a chunk. -/
structure ChoiceDelta where
  content : Option String
  toolCalls : List ToolCallDelta
  finishReason : Option String
deriving BEq, Repr

/-- A downstream chunk: either well-formed (optional usage counts and
optional first choice) or malformed (its processing raises and is
skipped). -/
inductive Chunk where
  | malformed
  | chunkData (usage : Option (Nat × Nat)) (choice : Option ChoiceDelta)
deriving BEq, Repr

/-- The Protocol-A streaming events, keeping the fields the claims
inspect; `doneMarker` is the terminal `data: [DONE]` sentinel. -/
inductive AEvent where
  | messageStart
  | ping
  | blockStartText (idx : Nat)
  | blockStartTool (idx : Nat) (id : String) (name : String)
  | textDelta (idx : Nat) (t : String)
  | jsonDelta (idx : Nat) (fragment : String)
  | blockStop (idx : Nat)
  | messageDelta (stopReason : String)
  | messageStop
  | doneMarker
deriving DecidableEq, BEq, Repr

/-- The transcoder's working state (server.py lines 916-925). -/
structure StState where
  toolIndex : Option Nat
  toolContent : String
  accumulatedText : String
  textSent : Bool
  textBlockClosed : Bool
  inputTokens : Nat
  outputTokens : Nat
  hasSentStopReason : Bool
  lastToolIndex : Nat
deriving BEq, Repr

/-- The state at stream start. -/
def initState : StState :=
  { toolIndex := Option.none
    toolContent := ""
    accumulatedText := ""
    textSent := false
    textBlockClosed := false
    inputTokens := 0
    outputTokens := 0
    hasSentStopReason := false
    lastToolIndex := 0 }

/-- Closing of text block 0 on the first tool-call delta (lines
983-1000): close after streamed text, flush buffered text then close,
or close the empty block. -/
def closeTextForTool (s : StState) : List AEvent × StState :=
  if s.textSent && !s.textBlockClosed then
    ([.blockStop 0], { s with textBlockClosed := true })
  else if !(s.accumulatedText == "") && !s.textSent && !s.textBlockClosed then
    ([.textDelta 0 s.accumulatedText, .blockStop 0],
      { s with textSent := true, textBlockClosed := true })
  else if !s.textBlockClosed then
    ([.blockStop 0], { s with textBlockClosed := true })
  else ([], s)

/-- Processing of one tool-call delta inside the loop (lines
1006-1067).  A new downstream call index allocates the next ascending
output block index and opens a `tool_use` block; an argument fragment
is appended to the call's buffer and emitted verbatim (the validity
probe at lines 1050-1061 leaves string fragments unchanged). -/
def processToolCall (s : StState) (tc : ToolCallDelta) : List AEvent × StState :=
  let (evs1, s1) :=
    if s.toolIndex != some tc.index then
      let nextIdx := s.lastToolIndex + 1
      ([.blockStartTool nextIdx (tc.id.getD "toolu_generated") tc.name],
        { s with toolIndex := some tc.index, lastToolIndex := nextIdx, toolContent := "" })
    else ([], s)
  if tc.arguments != "" then
    (evs1 ++ [.jsonDelta s1.lastToolIndex tc.arguments],
      { s1 with toolContent := s1.toolContent ++ tc.arguments })
  else (evs1, s1)

/-- The terminal flush on a truthy finish reason (lines 1070-1106):
close tool blocks 1..last, flush and close text block 0 if still open,
then `message_delta`, `message_stop` and the sentinel. -/
def finishEvents (s : StState) (finishReason : String) : List AEvent :=
  (if s.toolIndex.isSome then
    (List.range s.lastToolIndex).map (fun i => .blockStop (i + 1))
  else [])
  ++ (if !s.textBlockClosed then
    (if !(s.accumulatedText == "") && !s.textSent then [.textDelta 0 s.accumulatedText] else [])
      ++ [.blockStop 0]
  else [])
  ++ [.messageDelta (mapStopReasonStreaming finishReason), .messageStop, .doneMarker]

/-- The usage update at lines 933-937. -/
def applyUsage (s : StState) (usage : Option (Nat × Nat)) : StState :=
  match usage with
  | some (p, q) => { s with inputTokens := p, outputTokens := q }
  | Option.none => s

/-- The text-content handling of the loop body (lines 953-969): a
non-empty delta is accumulated and, while no tool call has opened and
the text block is open, emitted as a `text_delta` on block 0. -/
def textPhase (s : StState) (content : Option String) : List AEvent × StState :=
  match content with
  | some t =>
    if t == "" then ([], s)
    else
      let sAcc := { s with accumulatedText := s.accumulatedText ++ t }
      if sAcc.toolIndex.isNone && !sAcc.textBlockClosed then
        ([.textDelta 0 t], { sAcc with textSent := true })
      else ([], sAcc)
  | Option.none => ([], s)

/-- The `for tool_call in delta_tool_calls` loop (lines 1006-1067). -/
def toolLoop (s : StState) : List ToolCallDelta → List AEvent × StState
  | [] => ([], s)
  | tc :: rest =>
    let (e, s1) := processToolCall s tc
    let (e2, s2) := toolLoop s1 rest
    (e ++ e2, s2)

/-- The tool-call handling of the loop body (lines 981-1067): on the
first tool-call delta text block 0 is terminated, then each delta is
processed in order. -/
def toolPhase (s : StState) (tcs : List ToolCallDelta) : List AEvent × StState :=
  if tcs.isEmpty then ([], s)
  else
    let (evsC, sC) := if s.toolIndex.isNone then closeTextForTool s else ([], s)
    let (evsT, sT) := toolLoop sC tcs
    (evsC ++ evsT, sT)

/-- The finish-reason handling (lines 1070-1106): a truthy finish
reason not yet processed emits the terminal flush and returns. -/
def finishPhase (s : StState) (finishReason : Option String) : List AEvent × StState × Bool :=
  match finishReason with
  | some fr =>
    if fr != "" && !s.hasSentStopReason then
      (finishEvents s fr, { s with hasSentStopReason := true }, true)
    else ([], s, false)
  | Option.none => ([], s, false)

/-- Processing of one chunk (the loop body, lines 928-1110).  The
result flag is true when the finish-reason branch returned, ending
consumption. -/
def processChunk (s : StState) (c : Chunk) : List AEvent × StState × Bool :=
  match c with
  | .malformed => ([], s, false)
  | .chunkData usage choice =>
    let s0 := applyUsage s usage
    match choice with
    | Option.none => ([], s0, false)
    | some d =>
      let (evs1, s1) := textPhase s0 d.content
      let (evs2, s2) := toolPhase s1 d.toolCalls
      let (evs3, s3, fin) := finishPhase s2 d.finishReason
      (evs1 ++ evs2 ++ evs3, s3, fin)

/-- Consumption of the chunk list; stops on an early return. -/
def runChunks (s : StState) : List Chunk → List AEvent × StState × Bool
  | [] => ([], s, false)
  | c :: rest =>
    let (evs, s1, fin) := processChunk s c
    if fin then (evs, s1, true)
    else
      let (evs2, s2, fin2) := runChunks s1 rest
      (evs ++ evs2, s2, fin2)

/-- The events emitted before any chunk (lines 887-914): message_start,
the text block 0 start, and a keep-alive ping. -/
def streamHeader : List AEvent :=
  [.messageStart, .blockStartText 0, .ping]

/-- The close sequence when the stream ends without a finish reason
(lines 1112-1131). -/
def endOfStreamEvents (s : StState) : List AEvent :=
  if !s.hasSentStopReason then
    (if s.toolIndex.isSome then
      (List.range s.lastToolIndex).map (fun i => .blockStop (i + 1))
    else [])
    ++ [.blockStop 0, .messageDelta "end_turn", .messageStop, .doneMarker]
  else []

/-- The synthetic terminal frame of the outer exception handler
(lines 1133-1161). -/
def fatalTail : List AEvent :=
  [.messageDelta "error", .messageStop, .doneMarker]

/-- `handle_streaming` (lines 884-1161): the full event sequence for a
chunk list.  `genRaises` models the chunk source raising after the
listed chunks (unreached if a finish reason already returned). -/
def handle_streaming (cs : List Chunk) (genRaises : Bool) : List AEvent :=
  let (evs, s, fin) := runChunks initState cs
  if fin then streamHeader ++ evs
  else if genRaises then streamHeader ++ evs ++ fatalTail
  else streamHeader ++ evs ++ endOfStreamEvents s

/-! ## Event observations used by the claims -/

/-- Whether an event is a `content_block_start`. -/
def isBlockStartEv : AEvent → Bool
  | .blockStartText _ => true
  | .blockStartTool _ _ _ => true
  | _ => false

/-- Whether an event is a `content_block_stop`. -/
def isBlockStopEv : AEvent → Bool
  | .blockStop _ => true
  | _ => false

/-- Whether an event is a `message_stop`. -/
def isMessageStopEv : AEvent → Bool
  | .messageStop => true
  | _ => false

/-- Whether an event is the `data: [DONE]` sentinel. -/
def isDoneEv : AEvent → Bool
  | .doneMarker => true
  | _ => false

/-- Whether an event is a `text_delta` content-block delta. -/
def isTextDeltaEv : AEvent → Bool
  | .textDelta _ _ => true
  | _ => false

/-- The index of a `content_block_start` event. -/
def startIdxOf : AEvent → Option Nat
  | .blockStartText i => some i
  | .blockStartTool i _ _ => some i
  | _ => Option.none

/-- The index of a `content_block_stop` event. -/
def stopIdxOf : AEvent → Option Nat
  | .blockStop i => some i
  | _ => Option.none

/-- The number of `content_block_start` events. -/
def countStarts (evs : List AEvent) : Nat :=
  evs.countP isBlockStartEv

/-- The number of `content_block_stop` events. -/
def countStops (evs : List AEvent) : Nat :=
  evs.countP isBlockStopEv

/-- The number of `content_block_start` events at a given index. -/
def startIdxCount (i : Nat) (evs : List AEvent) : Nat :=
  evs.countP (fun e => startIdxOf e == some i)

/-- The number of `content_block_stop` events at a given index. -/
def stopIdxCount (i : Nat) (evs : List AEvent) : Nat :=
  evs.countP (fun e => stopIdxOf e == some i)

/-- The set (as a list) of block indices opened by the events, on top
of those already opened. -/
def collectStarts (started : List Nat) : List AEvent → List Nat
  | [] => started
  | e :: rest =>
    match e with
    | .blockStartText i => collectStarts (i :: started) rest
    | .blockStartTool i _ _ => collectStarts (i :: started) rest
    | _ => collectStarts started rest

/-- Whether every `content_block_stop` is at an index opened by a
prior `content_block_start` (or one of the initially open indices). -/
def stopsOkAux (started : List Nat) : List AEvent → Bool
  | [] => true
  | e :: rest =>
    match e with
    | .blockStartText i => stopsOkAux (i :: started) rest
    | .blockStartTool i _ _ => stopsOkAux (i :: started) rest
    | .blockStop i => decide (i ∈ started) && stopsOkAux started rest
    | _ => stopsOkAux started rest

/-- The events strictly before the first `message_stop`. -/
def beforeMessageStop : List AEvent → List AEvent
  | [] => []
  | e :: rest => if isMessageStopEv e then [] else e :: beforeMessageStop rest

/-- The block-closure invariant claimed for the emitted event stream:
equally many starts and stops, every stop at a previously started
index, and every started index stopped exactly once before
`message_stop`. -/
def c1Property (evs : List AEvent) : Prop :=
  countStarts evs = countStops evs ∧
  stopsOkAux [] evs = true ∧
  ∀ i, 0 < startIdxCount i evs → stopIdxCount i (beforeMessageStop evs) = 1

/-- Concatenation of a list of strings. -/
def strConcat : List String → String
  | [] => ""
  | s :: rest => s ++ strConcat rest

/-- The per-block fragments of a block list, in order; any raising
block aborts. -/
def mapFragments (f : AContentBlock → Except Unit String) :
    List AContentBlock → Except Unit (List String)
  | [] => .ok []
  | b :: rest =>
    match f b with
    | .error e => .error e
    | .ok fr =>
      match mapFragments f rest with
      | .error e => .error e
      | .ok frs => .ok (fr :: frs)

/-- Modelled from the claim's words for C6: the content fragment a
block contributes, concatenated with no separators (`text` blocks give
their text; `tool_result` blocks give `"Tool result for id:\ntext"`). -/
def c6LiteralFragment (b : AContentBlock) : Except Unit String :=
  match b with
  | .text t => .ok t
  | .toolResult id c => (toolResultContentText c).map
      (fun rc => "Tool result for " ++ id ++ ":\n" ++ rc)
  | _ => .ok ""

/-- Invariant tying the transcoder state to the events emitted so far;
it holds at every point between chunks while the stream is live. -/
structure RunInv (s : StState) (evs : List AEvent) : Prop where
  start0 : startIdxCount 0 evs = 1
  stop0 : stopIdxCount 0 evs = (if s.textBlockClosed then 1 else 0)
  startTool : ∀ k, startIdxCount (k + 1) evs = (if k < s.lastToolIndex then 1 else 0)
  stopTool : ∀ k, stopIdxCount (k + 1) evs = 0
  startsTotal : countStarts evs = 1 + s.lastToolIndex
  stopsTotal : countStops evs = (if s.textBlockClosed then 1 else 0)
  closedIffTool : s.textBlockClosed = s.toolIndex.isSome
  noneZero : s.toolIndex = Option.none → s.lastToolIndex = 0
  notSent : s.hasSentStopReason = false
  ordered : stopsOkAux [] evs = true
  noMsgStop : evs.countP isMessageStopEv = 0
  noDone : evs.countP isDoneEv = 0

/-- Weakening of `RunInv` that holds through the tool-call loop, where
the text block is already closed but `toolIndex` may still lag. -/
structure ToolInv (s : StState) (evs : List AEvent) : Prop where
  start0 : startIdxCount 0 evs = 1
  stop0 : stopIdxCount 0 evs = 1
  startTool : ∀ k, startIdxCount (k + 1) evs = (if k < s.lastToolIndex then 1 else 0)
  stopTool : ∀ k, stopIdxCount (k + 1) evs = 0
  startsTotal : countStarts evs = 1 + s.lastToolIndex
  stopsTotal : countStops evs = 1
  closed : s.textBlockClosed = true
  notSent : s.hasSentStopReason = false
  ordered : stopsOkAux [] evs = true
  noMsgStop : evs.countP isMessageStopEv = 0
  noDone : evs.countP isDoneEv = 0

/-- Shape of a finished event stream: one terminal triple at the end,
nothing terminal before it. -/
structure TerminalShape (evs : List AEvent) : Prop where
  decomp : ∃ pre r, evs = pre ++ [.messageDelta r, .messageStop, .doneMarker] ∧
    pre.countP isMessageStopEv = 0 ∧ pre.countP isDoneEv = 0

/-- Shape of the full event list on the paths that close every block:
terminal triple at the end and balanced block events. -/
structure FinalShape (evs : List AEvent) : Prop where
  terminal : TerminalShape evs
  perIdxEq : ∀ i, stopIdxCount i evs = startIdxCount i evs
  perIdxLe : ∀ i, startIdxCount i evs ≤ 1
  totalEq : countStarts evs = countStops evs
  ordered : stopsOkAux [] evs = true

/-! ## Helper lemmas -/

theorem head?_dropWhile_false (p : Char → Bool) :
    ∀ (l : List Char) (c : Char), (l.dropWhile p).head? = some c → p c = false := by
  intro l
  induction l with
  | nil => intro c h; simp [List.dropWhile] at h
  | cons a t ih =>
    intro c h
    cases hp : p a with
    | true =>
      simp only [List.dropWhile, hp] at h
      exact ih c h
    | false =>
      simp only [List.dropWhile, hp, List.head?_cons, Option.some.injEq] at h
      subst h
      exact hp

theorem hasTrailingWS_pyStrip (s : String) : hasTrailingWS (pyStrip s) = false := by
  have h : (pyStrip s).data = pyStripList s.data := rfl
  unfold hasTrailingWS
  rw [h]
  unfold pyStripList
  rw [List.reverse_reverse]
  cases hh : ((s.data.dropWhile isPySpace).reverse.dropWhile isPySpace).head? with
  | none => simp
  | some c => exact head?_dropWhile_false isPySpace _ c hh

/-! ## Claim theorems: content normalization (C4, C9) -/

/-- C4 (amended): `parse_tool_result_content` returns without raising
for every non-list input; `None` maps to the sentinel string; string
inputs are returned unchanged, so trailing whitespace is preserved
rather than trimmed; list inputs that process successfully yield a
string stripped of trailing whitespace (items raise only when a dict
item carries a non-string `text` value). -/
theorem c4_normalization :
    (parse_tool_result_content .none = .ok (.str "No content provided")) ∧
    (∀ s, parse_tool_result_content (.str s) = .ok (.str s)) ∧
    (∀ xs v, parse_tool_result_content (.list xs) = .ok v →
      ∃ r, v = .str r ∧ hasTrailingWS r = false) ∧
    (∀ x, (∀ xs, x ≠ .list xs) → ∃ v, parse_tool_result_content x = .ok v) := by
  refine ⟨rfl, fun s => rfl, ?_, ?_⟩
  · intro xs v h
    unfold parse_tool_result_content at h
    cases hf : xs.foldlM parseToolResultItem "" with
    | ok r =>
      simp only [hf] at h
      cases h
      exact ⟨pyStrip r, rfl, hasTrailingWS_pyStrip r⟩
    | error e =>
      simp only [hf] at h
      exact Except.noConfusion h
  · intro x hx
    cases x with
    | list xs => exact absurd rfl (hx xs)
    | none => exact ⟨_, rfl⟩
    | str s => exact ⟨_, rfl⟩
    | int n => exact ⟨_, rfl⟩
    | float lex => exact ⟨_, rfl⟩
    | bool b => exact ⟨_, rfl⟩
    | dict kvs =>
      cases hc : isTextTag (dictFind kvs "type") with
      | true =>
        exact ⟨dictGetD kvs "text" (.str ""), by simp [parse_tool_result_content, hc]⟩
      | false =>
        exact ⟨.str (jsonDumps (.dict kvs)), by simp [parse_tool_result_content, hc]⟩

/-- Witness for C4 at concrete inputs. -/
theorem c4_normalization_witness :
    (parse_tool_result_content (.list [.str "a"]) = .ok (.str "a")) ∧
    (∃ r, (PyVal.str "a") = .str r ∧ hasTrailingWS r = false) ∧
    ((∀ xs, (PyVal.int 7) ≠ .list xs) ∧ ∃ v, parse_tool_result_content (.int 7) = .ok v) := by
  refine ⟨rfl, ?_, ?_, ?_⟩
  · exact c4_normalization.2.2.1 [.str "a"] (.str "a") rfl
  · intro xs h; exact PyVal.noConfusion h
  · exact c4_normalization.2.2.2 (.int 7) (fun xs h => PyVal.noConfusion h)

/-- Counterexample for C4 as stated: a plain string input keeps its
trailing whitespace; a text-tagged dict returns its raw non-string
`text` value; a list item that is a dict with a non-string `text`
value raises. -/
theorem c4_counterexample :
    (parse_tool_result_content (.str "a ") = .ok (.str "a ") ∧ hasTrailingWS "a " = true) ∧
    parse_tool_result_content (.dict [("type", .str "text"), ("text", .int 5)]) = .ok (.int 5) ∧
    parse_tool_result_content (.list [.dict [("text", .int 5)]]) = .error () := by
  exact ⟨⟨rfl, rfl⟩, rfl, rfl⟩

/-- C9 (amended): idempotence holds whenever the first application
returns a string: every string input is a fixed point, so a string
result re-normalizes to itself.  (It fails when the first application
returns a non-string value, see the counterexample.) -/
theorem c9_idempotent_on_strings :
    (∀ s, parse_tool_result_content (.str s) = .ok (.str s)) ∧
    (∀ x r, parse_tool_result_content x = .ok (.str r) →
      parse_tool_result_content (.str r) = .ok (.str r)) :=
  ⟨fun _ => rfl, fun _ _ _ => rfl⟩

/-- Witness for C9 at a concrete input. -/
theorem c9_idempotent_on_strings_witness :
    parse_tool_result_content (.none) = .ok (.str "No content provided") ∧
    parse_tool_result_content (.str "No content provided")
      = .ok (.str "No content provided") :=
  ⟨rfl, c9_idempotent_on_strings.2 .none "No content provided" rfl⟩

/-- Counterexample for C9 as stated: a text-tagged dict carrying a
non-string `text` value normalizes to that raw value, whose second
normalization stringifies it, so the two applications differ. -/
theorem c9_counterexample :
    parse_tool_result_content (.dict [("type", .str "text"), ("text", .int 5)]) = .ok (.int 5) ∧
    parse_tool_result_content (.int 5) = .ok (.str "5") ∧
    (PyVal.int 5) ≠ (.str "5") :=
  ⟨rfl, rfl, fun h => PyVal.noConfusion h⟩

/-! ## Claim theorems: finish-reason mapping (C3) -/

/-- C3: the non-streaming response mapper and the streaming transcoder
map downstream finish reasons by the same total table: `stop` to
`end_turn`, `length` to `max_tokens`, `tool_calls` to `tool_use`, and
everything else to `end_turn`; both mappings are total functions. -/
theorem c3_finish_reason_mapping :
    (∀ fr, mapStopReasonResponse (some fr) = mapStopReasonStreaming fr) ∧
    mapStopReasonStreaming "stop" = "end_turn" ∧
    mapStopReasonStreaming "length" = "max_tokens" ∧
    mapStopReasonStreaming "tool_calls" = "tool_use" ∧
    (∀ fr, fr ≠ "stop" → fr ≠ "length" → fr ≠ "tool_calls" →
      mapStopReasonStreaming fr = "end_turn") := by
  refine ⟨?_, rfl, rfl, rfl, ?_⟩
  · intro fr
    by_cases h1 : fr = "stop"
    · subst h1; rfl
    by_cases h2 : fr = "length"
    · subst h2; rfl
    by_cases h3 : fr = "tool_calls"
    · subst h3; rfl
    simp [mapStopReasonResponse, mapStopReasonStreaming, Option.some.injEq, h1, h2, h3]
  · intro fr h1 h2 h3
    simp [mapStopReasonStreaming, h1, h2, h3]

/-- Witness for C3 at a concrete unknown finish reason. -/
theorem c3_finish_reason_mapping_witness :
    ("content_filter" ≠ "stop" ∧ "content_filter" ≠ "length"
      ∧ "content_filter" ≠ "tool_calls") ∧
    mapStopReasonStreaming "content_filter" = "end_turn" :=
  ⟨⟨by decide, by decide, by decide⟩,
    c3_finish_reason_mapping.2.2.2.2 "content_filter" (by decide) (by decide) (by decide)⟩

/-! ## Claim theorems: request mapper (C7, C8, C5, C6) -/

/-- C7: whenever the resolved model carries the capped provider's
prefix, the downstream `max_tokens` is `min(requested, 16384)`; in
particular requests at or under the ceiling pass through unchanged. -/
theorem c7_max_tokens_cap :
    ∀ (req : MessagesRequest) (u : Bool) (out : LiteLLMRequest),
      strStarts req.model "openai/" = true →
      convert_anthropic_to_litellm req u = .ok out →
      out.maxTokens = min req.maxTokens 16384 ∧
      (req.maxTokens ≤ 16384 → out.maxTokens = req.maxTokens) := by
  intro req u out hm hc
  unfold convert_anthropic_to_litellm at hc
  cases hmsg : convertMessages req.messages with
  | error e =>
    simp only [hmsg] at hc
    exact Except.noConfusion hc
  | ok msgs =>
    simp only [hmsg] at hc
    cases hc
    refine ⟨by simp [hm], ?_⟩
    intro hle
    simp [hm, Nat.min_eq_left hle]

/-- Witness for C7: `max_tokens=100000` on an `openai/` model is
capped to 16384. -/
theorem c7_max_tokens_cap_witness :
    strStarts "openai/gpt-4o" "openai/" = true ∧
    convert_anthropic_to_litellm
      { model := "openai/gpt-4o", maxTokens := 100000, messages := [],
        system := Option.none, stream := false, reasoningEffort := Option.none } false
      = .ok { model := "openai/gpt-4o", messages := [], maxTokens := 16384,
              stream := false, reasoningEffort := Option.none } ∧
    (({ model := "openai/gpt-4o", messages := [], maxTokens := 16384,
        stream := false, reasoningEffort := Option.none } : LiteLLMRequest).maxTokens
        = min 100000 16384 ∧
      (100000 ≤ 16384 →
        ({ model := "openai/gpt-4o", messages := [], maxTokens := 16384,
           stream := false, reasoningEffort := Option.none } : LiteLLMRequest).maxTokens
          = 100000)) :=
  ⟨rfl, rfl,
    c7_max_tokens_cap
      { model := "openai/gpt-4o", maxTokens := 100000, messages := [],
        system := Option.none, stream := false, reasoningEffort := Option.none }
      false
      { model := "openai/gpt-4o", messages := [], maxTokens := 16384,
        stream := false, reasoningEffort := Option.none }
      rfl rfl⟩

/-- C8 (amended): a caller-supplied non-empty reasoning-effort value
is forwarded verbatim; when the field is absent or the empty string,
the downstream request gets `"high"` exactly when the prefix-stripped
model name contains `o3-` or `o1`, and no value otherwise. -/
theorem c8_reasoning_effort :
    ∀ (req : MessagesRequest) (u : Bool) (out : LiteLLMRequest),
      convert_anthropic_to_litellm req u = .ok out →
      (∀ e, req.reasoningEffort = some e → e ≠ "" → out.reasoningEffort = some e) ∧
      ((req.reasoningEffort = Option.none ∨ req.reasoningEffort = some "") →
        out.reasoningEffort =
          (if strContainsSub (cleanModelName req.model) "o3-"
              || strContainsSub (cleanModelName req.model) "o1"
           then some "high" else Option.none)) := by
  intro req u out hc
  unfold convert_anthropic_to_litellm at hc
  cases hmsg : convertMessages req.messages with
  | error e =>
    simp only [hmsg] at hc
    exact Except.noConfusion hc
  | ok msgs =>
    simp only [hmsg] at hc
    cases hc
    constructor
    · intro e he hne
      simp [reasoningEffortField, he, bne_iff_ne, hne]
    · intro hcase
      rcases hcase with h | h <;> simp [reasoningEffortField, h]

/-- Witness for C8: a non-empty caller value is forwarded. -/
theorem c8_reasoning_effort_witness :
    convert_anthropic_to_litellm
      { model := "openai/gpt-4o", maxTokens := 10, messages := [],
        system := Option.none, stream := false, reasoningEffort := some "medium" } false
      = .ok { model := "openai/gpt-4o", messages := [], maxTokens := 10,
              stream := false, reasoningEffort := some "medium" } ∧
    (some "medium" : Option String) = some "medium" ∧ "medium" ≠ "" ∧
    ({ model := "openai/gpt-4o", messages := [], maxTokens := 10,
       stream := false, reasoningEffort := some "medium" } : LiteLLMRequest).reasoningEffort
      = some "medium" :=
  ⟨rfl, rfl, by decide,
    (c8_reasoning_effort
      { model := "openai/gpt-4o", maxTokens := 10, messages := [],
        system := Option.none, stream := false, reasoningEffort := some "medium" }
      false
      { model := "openai/gpt-4o", messages := [], maxTokens := 10,
        stream := false, reasoningEffort := some "medium" }
      rfl).1 "medium" rfl (by decide)⟩

/-- Counterexample for C8 as stated: a caller-supplied empty
reasoning-effort value is falsy in Python, so it is dropped instead of
forwarded verbatim. -/
theorem c8_counterexample :
    (convert_anthropic_to_litellm
      { model := "openai/gpt-4o", maxTokens := 100, messages := [],
        system := Option.none, stream := false, reasoningEffort := some "" } false).map
      LiteLLMRequest.reasoningEffort = .ok Option.none ∧
    (Option.none : Option String) ≠ some "" :=
  ⟨rfl, fun h => Option.noConfusion h⟩

/-- C5: a tool call whose argument string is not valid JSON yields,
for model families with first-class tool blocks, a `tool_use` block
whose input is the object `\x7b"raw": original\x7d`; argument parsing
never raises. -/
theorem c5_bad_json_raw_fallback :
    ∀ (r : LLResponse) (model : String) (tc : LLToolCall) (a : String),
      strStarts (cleanModelName model) "claude-" = true →
      tc ∈ r.toolCalls →
      tc.arguments = .str a →
      jsonLoads a = Option.none →
      RespBlock.toolUse (tc.id.getD "tool_generated") tc.name (.dict [("raw", .str a)])
        ∈ (convert_litellm_to_anthropic r model).content := by
  intro r model tc a hclaude hmem harg hjson
  have hne : r.toolCalls.isEmpty = false := by
    cases hcs : r.toolCalls with
    | nil =>
      rw [hcs] at hmem
      exact absurd hmem (List.not_mem_nil tc)
    | cons x xs => rfl
  have hblock : toolUseBlockOfCall tc
      = .toolUse (tc.id.getD "tool_generated") tc.name (.dict [("raw", .str a)]) := by
    simp [toolUseBlockOfCall, toolCallInput, harg, hjson]
  unfold convert_litellm_to_anthropic
  simp only [hclaude, hne, Bool.not_false, Bool.true_and, if_true]
  have hmemMap : RespBlock.toolUse (tc.id.getD "tool_generated") tc.name
      (.dict [("raw", .str a)]) ∈ r.toolCalls.map toolUseBlockOfCall :=
    hblock ▸ List.mem_map_of_mem toolUseBlockOfCall hmem
  have hcontent1ne :
      ∀ (c0 : List RespBlock), (c0 ++ r.toolCalls.map toolUseBlockOfCall).isEmpty = false := by
    intro c0
    cases hcs : r.toolCalls with
    | nil =>
      rw [hcs] at hne
      exact absurd hne (by simp [List.isEmpty])
    | cons x xs => cases c0 <;> simp [List.isEmpty]
  simp only [hcontent1ne]
  exact List.mem_append_right _ hmemMap

/-- Witness for C5 at the concrete argument string of Scenario E. -/
theorem c5_bad_json_raw_fallback_witness :
    strStarts (cleanModelName "claude-3-sonnet") "claude-" = true ∧
    (⟨some "t1", "search", .str "\x7bbad json"⟩ : LLToolCall)
      ∈ [(⟨some "t1", "search", .str "\x7bbad json"⟩ : LLToolCall)] ∧
    (⟨some "t1", "search", .str "\x7bbad json"⟩ : LLToolCall).arguments
      = .str "\x7bbad json" ∧
    jsonLoads "\x7bbad json" = Option.none ∧
    RespBlock.toolUse "t1" "search" (.dict [("raw", .str "\x7bbad json")])
      ∈ (convert_litellm_to_anthropic
          { contentText := Option.none,
            toolCalls := [⟨some "t1", "search", .str "\x7bbad json"⟩],
            finishReason := some "tool_calls", promptTokens := 0, completionTokens := 0,
            respId := "r1" } "claude-3-sonnet").content :=
  ⟨rfl, List.mem_singleton.mpr rfl, rfl, rfl,
    c5_bad_json_raw_fallback
      { contentText := Option.none,
        toolCalls := [⟨some "t1", "search", .str "\x7bbad json"⟩],
        finishReason := some "tool_calls", promptTokens := 0, completionTokens := 0,
        respId := "r1" }
      "claude-3-sonnet"
      ⟨some "t1", "search", .str "\x7bbad json"⟩
      "\x7bbad json" rfl (List.mem_singleton.mpr rfl) rfl rfl⟩

theorem buildUserToolText_eq_mapFragments :
    ∀ (blocks : List AContentBlock) (acc : String) (frs : List String),
      mapFragments userToolResultFragment blocks = .ok frs →
      buildUserToolText acc blocks = .ok (acc ++ strConcat frs) := by
  intro blocks
  induction blocks with
  | nil =>
    intro acc frs h
    unfold mapFragments at h
    cases h
    simp [buildUserToolText, strConcat, String.append_empty]
  | cons b rest ih =>
    intro acc frs h
    unfold mapFragments at h
    cases hf : userToolResultFragment b with
    | error e =>
      rw [hf] at h
      exact Except.noConfusion h
    | ok fr =>
      rw [hf] at h
      cases hrest : mapFragments userToolResultFragment rest with
      | error e =>
        rw [hrest] at h
        exact Except.noConfusion h
      | ok frs2 =>
        rw [hrest] at h
        cases h
        unfold buildUserToolText
        simp only [hf]
        rw [ih (acc ++ fr) frs2 hrest]
        simp [strConcat, String.append_assoc]

/-- C6 (amended): a user message whose block content holds a
tool_result block maps to exactly one downstream user message; its
content is the concatenation of the per-block fragments — each text
block's text and, for each tool_result block,
`"Tool result for id:\ntext"` — each fragment followed by a newline
separator, with the final concatenation stripped of surrounding
whitespace. -/
theorem c6_user_tool_result :
    ∀ (req : MessagesRequest) (u : Bool) (blocks : List AContentBlock) (frs : List String)
      (out : LiteLLMRequest),
      req.messages = [⟨"user", Sum.inr blocks⟩] →
      req.system = Option.none →
      hasToolResultBlock blocks = true →
      mapFragments userToolResultFragment blocks = .ok frs →
      convert_anthropic_to_litellm req u = .ok out →
      out.messages = [⟨"user", .str (pyStrip (strConcat frs))⟩] := by
  intro req u blocks frs out hmsgs hsys htr hfr hc
  have hbuild : buildUserToolText "" blocks = .ok (strConcat frs) := by
    have h := buildUserToolText_eq_mapFragments blocks "" frs hfr
    rwa [String.empty_append] at h
  have hone : convertOneMessage ⟨"user", Sum.inr blocks⟩
      = .ok ⟨"user", .str (pyStrip (strConcat frs))⟩ := by
    unfold convertOneMessage
    simp [htr, hbuild]
  unfold convert_anthropic_to_litellm at hc
  rw [hmsgs] at hc
  unfold convertMessages at hc
  simp only [hone] at hc
  unfold convertMessages at hc
  simp only [hsys, systemMessages] at hc
  cases hc
  rfl

/-- Witness for C6 at the concrete Scenario-C input. -/
theorem c6_user_tool_result_witness :
    mapFragments userToolResultFragment [.toolResult "t1" (.str "42")]
      = .ok ["Tool result for t1:\n42\n"] ∧
    hasToolResultBlock [.toolResult "t1" (.str "42")] = true ∧
    convert_anthropic_to_litellm
      { model := "openai/gpt-4o", maxTokens := 10,
        messages := [⟨"user", Sum.inr [.toolResult "t1" (.str "42")]⟩],
        system := Option.none, stream := false, reasoningEffort := Option.none } false
      = .ok { model := "openai/gpt-4o",
              messages := [⟨"user", .str "Tool result for t1:\n42"⟩], maxTokens := 10,
              stream := false, reasoningEffort := Option.none } ∧
    ([⟨"user", .str "Tool result for t1:\n42"⟩] : List LLMessage)
      = [⟨"user", .str (pyStrip (strConcat ["Tool result for t1:\n42\n"]))⟩] :=
  ⟨rfl, rfl, rfl,
    c6_user_tool_result
      { model := "openai/gpt-4o", maxTokens := 10,
        messages := [⟨"user", Sum.inr [.toolResult "t1" (.str "42")]⟩],
        system := Option.none, stream := false, reasoningEffort := Option.none }
      false [.toolResult "t1" (.str "42")] ["Tool result for t1:\n42\n"]
      { model := "openai/gpt-4o",
        messages := [⟨"user", .str "Tool result for t1:\n42"⟩], maxTokens := 10,
        stream := false, reasoningEffort := Option.none }
      rfl rfl rfl rfl rfl⟩

/-- Counterexample for C6 as stated: with a text block preceding the
tool result, the code inserts a newline separator between fragments,
so the content is not the bare concatenation the claim describes. -/
theorem c6_counterexample :
    convertOneMessage ⟨"user", Sum.inr [.text "a", .toolResult "t1" (.str "42")]⟩
      = .ok ⟨"user", .str "a\nTool result for t1:\n42"⟩ ∧
    mapFragments c6LiteralFragment [.text "a", .toolResult "t1" (.str "42")]
      = .ok ["a", "Tool result for t1:\n42"] ∧
    "a\nTool result for t1:\n42" ≠ strConcat ["a", "Tool result for t1:\n42"] :=
  ⟨rfl, rfl, by decide⟩

/-! ## Counting infrastructure for the streaming proofs -/

@[simp] theorem startIdxCount_nil (i : Nat) : startIdxCount i [] = 0 := rfl

@[simp] theorem stopIdxCount_nil (i : Nat) : stopIdxCount i [] = 0 := rfl

@[simp] theorem countStarts_nil : countStarts [] = 0 := rfl

@[simp] theorem countStops_nil : countStops [] = 0 := rfl

theorem startIdxCount_append (i : Nat) (xs ys : List AEvent) :
    startIdxCount i (xs ++ ys) = startIdxCount i xs + startIdxCount i ys := by
  simp [startIdxCount, List.countP_append]

theorem stopIdxCount_append (i : Nat) (xs ys : List AEvent) :
    stopIdxCount i (xs ++ ys) = stopIdxCount i xs + stopIdxCount i ys := by
  simp [stopIdxCount, List.countP_append]

theorem countStarts_append (xs ys : List AEvent) :
    countStarts (xs ++ ys) = countStarts xs + countStarts ys := by
  simp [countStarts, List.countP_append]

theorem countStops_append (xs ys : List AEvent) :
    countStops (xs ++ ys) = countStops xs + countStops ys := by
  simp [countStops, List.countP_append]

@[simp] theorem startIdxCount_cons (i : Nat) (e : AEvent) (xs : List AEvent) :
    startIdxCount i (e :: xs)
      = startIdxCount i xs + (if startIdxOf e == some i then 1 else 0) := by
  simp [startIdxCount, List.countP_cons]

@[simp] theorem stopIdxCount_cons (i : Nat) (e : AEvent) (xs : List AEvent) :
    stopIdxCount i (e :: xs)
      = stopIdxCount i xs + (if stopIdxOf e == some i then 1 else 0) := by
  simp [stopIdxCount, List.countP_cons]

@[simp] theorem countStarts_cons (e : AEvent) (xs : List AEvent) :
    countStarts (e :: xs) = countStarts xs + (if isBlockStartEv e then 1 else 0) := by
  simp [countStarts, List.countP_cons]

@[simp] theorem countStops_cons (e : AEvent) (xs : List AEvent) :
    countStops (e :: xs) = countStops xs + (if isBlockStopEv e then 1 else 0) := by
  simp [countStops, List.countP_cons]

theorem startIdx_le_countStarts (i : Nat) (evs : List AEvent) :
    startIdxCount i evs ≤ countStarts evs := by
  apply List.countP_mono_left
  intro e _ h
  cases e <;> simp [startIdxOf] at h <;> simp [isBlockStartEv]

theorem stopIdx_le_countStops (i : Nat) (evs : List AEvent) :
    stopIdxCount i evs ≤ countStops evs := by
  apply List.countP_mono_left
  intro e _ h
  cases e <;> simp [stopIdxOf] at h <;> simp [isBlockStopEv]

theorem stopsOkAux_append (started : List Nat) (xs ys : List AEvent) :
    stopsOkAux started (xs ++ ys)
      = (stopsOkAux started xs && stopsOkAux (collectStarts started xs) ys) := by
  induction xs generalizing started with
  | nil => simp [stopsOkAux, collectStarts]
  | cons e rest ih =>
    cases e <;> simp [stopsOkAux, collectStarts, ih, Bool.and_assoc]

theorem stopsOkAux_of_noStops :
    ∀ (evs : List AEvent) (started : List Nat),
      countStops evs = 0 → stopsOkAux started evs = true := by
  intro evs
  induction evs with
  | nil => intro started _; rfl
  | cons e rest ih =>
    intro started h
    simp only [countStops_cons] at h
    cases e
    all_goals simp [isBlockStopEv] at h
    all_goals
      simp only [stopsOkAux]
      apply ih
      exact h

theorem mem_collectStarts_of_start (i : Nat) :
    ∀ (xs : List AEvent) (started : List Nat),
      (0 < startIdxCount i xs ∨ i ∈ started) → i ∈ collectStarts started xs := by
  intro xs
  induction xs with
  | nil =>
    intro started h
    rcases h with h | h
    · simp [startIdxCount] at h
    · simpa [collectStarts] using h
  | cons e rest ih =>
    intro started h
    cases e with
    | blockStartText j =>
      simp only [collectStarts]
      apply ih
      rcases h with h | h
      · by_cases hji : j = i
        · exact Or.inr (by simp [hji])
        · refine Or.inl ?_
          simpa [startIdxCount, List.countP_cons, startIdxOf, hji] using h
      · exact Or.inr (by simp [h])
    | blockStartTool j id name =>
      simp only [collectStarts]
      apply ih
      rcases h with h | h
      · by_cases hji : j = i
        · exact Or.inr (by simp [hji])
        · refine Or.inl ?_
          simpa [startIdxCount, List.countP_cons, startIdxOf, hji] using h
      · exact Or.inr (by simp [h])
    | messageStart =>
      simp only [collectStarts]
      apply ih
      rcases h with h | h
      · exact Or.inl (by simpa [startIdxCount, List.countP_cons, startIdxOf] using h)
      · exact Or.inr h
    | ping =>
      simp only [collectStarts]
      apply ih
      rcases h with h | h
      · exact Or.inl (by simpa [startIdxCount, List.countP_cons, startIdxOf] using h)
      · exact Or.inr h
    | textDelta j t =>
      simp only [collectStarts]
      apply ih
      rcases h with h | h
      · exact Or.inl (by simpa [startIdxCount, List.countP_cons, startIdxOf] using h)
      · exact Or.inr h
    | jsonDelta j f =>
      simp only [collectStarts]
      apply ih
      rcases h with h | h
      · exact Or.inl (by simpa [startIdxCount, List.countP_cons, startIdxOf] using h)
      · exact Or.inr h
    | blockStop j =>
      simp only [collectStarts]
      apply ih
      rcases h with h | h
      · exact Or.inl (by simpa [startIdxCount, List.countP_cons, startIdxOf] using h)
      · exact Or.inr h
    | messageDelta r =>
      simp only [collectStarts]
      apply ih
      rcases h with h | h
      · exact Or.inl (by simpa [startIdxCount, List.countP_cons, startIdxOf] using h)
      · exact Or.inr h
    | messageStop =>
      simp only [collectStarts]
      apply ih
      rcases h with h | h
      · exact Or.inl (by simpa [startIdxCount, List.countP_cons, startIdxOf] using h)
      · exact Or.inr h
    | doneMarker =>
      simp only [collectStarts]
      apply ih
      rcases h with h | h
      · exact Or.inl (by simpa [startIdxCount, List.countP_cons, startIdxOf] using h)
      · exact Or.inr h

theorem RunInv.extendNeutral {s : StState} {evs : List AEvent} (h : RunInv s evs)
    (evs2 : List AEvent) (hA : countStarts evs2 = 0) (hB : countStops evs2 = 0)
    (hC : evs2.countP isMessageStopEv = 0) (hD : evs2.countP isDoneEv = 0) :
    RunInv s (evs ++ evs2) := by
  have hsi : ∀ i, startIdxCount i evs2 = 0 := fun i =>
    Nat.le_zero.mp (hA ▸ startIdx_le_countStarts i evs2)
  have hpi : ∀ i, stopIdxCount i evs2 = 0 := fun i =>
    Nat.le_zero.mp (hB ▸ stopIdx_le_countStops i evs2)
  refine ⟨?_, ?_, ?_, ?_, ?_, ?_, h.closedIffTool, h.noneZero, h.notSent, ?_, ?_, ?_⟩
  · simp [startIdxCount_append, h.start0, hsi]
  · simp [stopIdxCount_append, h.stop0, hpi]
  · intro k; simp [startIdxCount_append, h.startTool k, hsi]
  · intro k; simp [stopIdxCount_append, h.stopTool k, hpi]
  · simp [countStarts_append, h.startsTotal, hA]
  · simp [countStops_append, h.stopsTotal, hB]
  · rw [stopsOkAux_append]
    simp [h.ordered, stopsOkAux_of_noStops evs2 _ hB]
  · simp [List.countP_append, h.noMsgStop, hC]
  · simp [List.countP_append, h.noDone, hD]

theorem ToolInv.extendNeutralTool {s : StState} {evs : List AEvent} (h : ToolInv s evs)
    (evs2 : List AEvent) (hA : countStarts evs2 = 0) (hB : countStops evs2 = 0)
    (hC : evs2.countP isMessageStopEv = 0) (hD : evs2.countP isDoneEv = 0) :
    ToolInv s (evs ++ evs2) := by
  have hsi : ∀ i, startIdxCount i evs2 = 0 := fun i =>
    Nat.le_zero.mp (hA ▸ startIdx_le_countStarts i evs2)
  have hpi : ∀ i, stopIdxCount i evs2 = 0 := fun i =>
    Nat.le_zero.mp (hB ▸ stopIdx_le_countStops i evs2)
  refine ⟨?_, ?_, ?_, ?_, ?_, ?_, h.closed, h.notSent, ?_, ?_, ?_⟩
  · simp [startIdxCount_append, h.start0, hsi]
  · simp [stopIdxCount_append, h.stop0, hpi]
  · intro k; simp [startIdxCount_append, h.startTool k, hsi]
  · intro k; simp [stopIdxCount_append, h.stopTool k, hpi]
  · simp [countStarts_append, h.startsTotal, hA]
  · simp [countStops_append, h.stopsTotal, hB]
  · rw [stopsOkAux_append]
    simp [h.ordered, stopsOkAux_of_noStops evs2 _ hB]
  · simp [List.countP_append, h.noMsgStop, hC]
  · simp [List.countP_append, h.noDone, hD]

theorem RunInv.congrStateRun {s s1 : StState} {evs : List AEvent} (h : RunInv s evs)
    (h1 : s1.toolIndex = s.toolIndex) (h2 : s1.textBlockClosed = s.textBlockClosed)
    (h3 : s1.lastToolIndex = s.lastToolIndex)
    (h4 : s1.hasSentStopReason = s.hasSentStopReason) :
    RunInv s1 evs := by
  refine ⟨h.start0, ?_, ?_, h.stopTool, ?_, ?_, ?_, ?_, ?_, h.ordered, h.noMsgStop, h.noDone⟩
  · rw [h2]; exact h.stop0
  · intro k; rw [h3]; exact h.startTool k
  · rw [h3]; exact h.startsTotal
  · rw [h2]; exact h.stopsTotal
  · rw [h2, h1]; exact h.closedIffTool
  · intro hnone
    rw [h1] at hnone
    rw [h3]
    exact h.noneZero hnone
  · rw [h4]; exact h.notSent

@[simp] theorem some_beq_some_nat (a b : Nat) : ((some a == some b) : Bool) = (a == b) := rfl

@[simp] theorem none_beq_some_nat (a : Nat) :
    (((Option.none : Option Nat) == some a) : Bool) = false := rfl

@[simp] theorem nat_zero_beq_succ (k : Nat) : (((0 : Nat) == (k + 1)) : Bool) = false := rfl

@[simp] theorem nat_succ_beq_zero (k : Nat) : ((((k + 1) : Nat) == 0) : Bool) = false := rfl

@[simp] theorem nat_succ_beq_succ (a b : Nat) :
    ((((a + 1) : Nat) == (b + 1)) : Bool) = (a == b) := by
  cases h : ((a == b) : Bool) with
  | true =>
    have hab : a = b := by simpa using h
    subst hab
    simp
  | false =>
    have hne : a ≠ b := by simpa using h
    simp only [beq_eq_false_iff_ne, ne_eq]
    omega

theorem runInv_init : RunInv initState streamHeader := by
  refine ⟨?_, ?_, ?_, ?_, ?_, ?_, rfl, fun _ => rfl, rfl, ?_, ?_, ?_⟩
  · decide
  · decide
  · intro k
    simp [initState, startIdxCount, streamHeader, List.countP_cons, List.countP_nil, startIdxOf]
  · intro k
    simp [stopIdxCount, streamHeader, List.countP_cons, List.countP_nil, stopIdxOf]
  · decide
  · decide
  · decide
  · decide
  · decide

theorem textPhase_runInv {s : StState} {evs : List AEvent} (h : RunInv s evs) :
    ∀ (o : Option String), RunInv (textPhase s o).2 (evs ++ (textPhase s o).1) := by
  intro o
  cases o with
  | none =>
    simp only [textPhase, List.append_nil]
    exact h
  | some t =>
    simp only [textPhase]
    cases ht : (t == "") with
    | true =>
      simp only [ht, if_true, List.append_nil]
      exact h
    | false =>
      simp only [ht, Bool.false_eq_true, if_false]
      cases hcond : (s.toolIndex.isNone && !s.textBlockClosed) with
      | true =>
        simp only [hcond, if_true]
        have h1 := h.extendNeutral [.textDelta 0 t]
          (by simp [countStarts, List.countP_cons, isBlockStartEv])
          (by simp [countStops, List.countP_cons, isBlockStopEv])
          (by simp [List.countP_cons, isMessageStopEv])
          (by simp [List.countP_cons, isDoneEv])
        exact h1.congrStateRun rfl rfl rfl rfl
      | false =>
        simp only [hcond, Bool.false_eq_true, if_false, List.append_nil]
        exact h.congrStateRun rfl rfl rfl rfl

theorem RunInv.toToolInv {s : StState} {evs : List AEvent} (h : RunInv s evs)
    (hcl : s.textBlockClosed = true) : ToolInv s evs :=
  ⟨h.start0, by simpa [hcl] using h.stop0, h.startTool, h.stopTool, h.startsTotal,
    by simpa [hcl] using h.stopsTotal, hcl, h.notSent, h.ordered, h.noMsgStop, h.noDone⟩

theorem ToolInv.toRunInv {s : StState} {evs : List AEvent} (h : ToolInv s evs)
    (hsome : s.toolIndex.isSome = true) : RunInv s evs := by
  refine ⟨h.start0, by simp [h.closed, h.stop0], h.startTool, h.stopTool, h.startsTotal,
    by simp [h.closed, h.stopsTotal], by simp [h.closed, hsome], ?_, h.notSent,
    h.ordered, h.noMsgStop, h.noDone⟩
  intro hnone
  rw [hnone] at hsome
  exact absurd hsome (by simp)

theorem ToolInv.congrStateTool {s s1 : StState} {evs : List AEvent} (h : ToolInv s evs)
    (h2 : s1.textBlockClosed = s.textBlockClosed)
    (h3 : s1.lastToolIndex = s.lastToolIndex)
    (h4 : s1.hasSentStopReason = s.hasSentStopReason) :
    ToolInv s1 evs := by
  refine ⟨h.start0, h.stop0, ?_, h.stopTool, ?_, h.stopsTotal, ?_, ?_,
    h.ordered, h.noMsgStop, h.noDone⟩
  · intro k; rw [h3]; exact h.startTool k
  · rw [h3]; exact h.startsTotal
  · rw [h2]; exact h.closed
  · rw [h4]; exact h.notSent

theorem toolInvAfterClose {s s1 : StState} {evs : List AEvent} (pre : List AEvent)
    (h : RunInv s evs)
    (hpreStarts : countStarts pre = 0) (hpreStops : countStops pre = 0)
    (hpreMs : pre.countP isMessageStopEv = 0) (hpreD : pre.countP isDoneEv = 0)
    (h1 : s1.textBlockClosed = true) (h2 : s1.lastToolIndex = s.lastToolIndex)
    (h3 : s1.hasSentStopReason = s.hasSentStopReason)
    (hclosed : s.textBlockClosed = false) :
    ToolInv s1 (evs ++ (pre ++ [.blockStop 0])) := by
  have hmid := h.extendNeutral pre hpreStarts hpreStops hpreMs hpreD
  have hassoc : evs ++ (pre ++ [AEvent.blockStop 0]) = (evs ++ pre) ++ [.blockStop 0] :=
    (List.append_assoc evs pre [.blockStop 0]).symm
  rw [hassoc]
  have hmem0 : (0 : Nat) ∈ collectStarts [] (evs ++ pre) :=
    mem_collectStarts_of_start 0 (evs ++ pre) []
      (Or.inl (by simp [startIdxCount_append, hmid.start0]))
  refine ⟨?_, ?_, ?_, ?_, ?_, ?_, h1, by rw [h3]; exact h.notSent, ?_, ?_, ?_⟩
  · have hx := hmid.start0
    simp only [startIdxCount_append] at hx ⊢
    simp [startIdxOf]
    omega
  · have hx := hmid.stop0
    rw [hclosed] at hx
    simp only [stopIdxCount_append] at hx ⊢
    simp [stopIdxOf] at hx ⊢
    omega
  · intro k
    have hx := hmid.startTool k
    rw [h2]
    simp only [startIdxCount_append] at hx ⊢
    simp [startIdxOf]
    by_cases hk : k < s.lastToolIndex <;> simp [hk] at hx ⊢ <;> omega
  · intro k
    have hx := hmid.stopTool k
    simp only [stopIdxCount_append] at hx ⊢
    simp [stopIdxOf]
    omega
  · have hx := hmid.startsTotal
    rw [h2]
    simp only [countStarts_append] at hx ⊢
    simp [isBlockStartEv]
    omega
  · have hx := hmid.stopsTotal
    rw [hclosed] at hx
    simp only [countStops_append] at hx ⊢
    simp [isBlockStopEv] at hx ⊢
    omega
  · rw [stopsOkAux_append]
    simp [hmid.ordered, stopsOkAux, hmem0]
  · have hx := hmid.noMsgStop
    simp only [List.countP_append] at hx ⊢
    have h0 : List.countP isMessageStopEv [AEvent.blockStop 0] = 0 := rfl
    omega
  · have hx := hmid.noDone
    simp only [List.countP_append] at hx ⊢
    have h0 : List.countP isDoneEv [AEvent.blockStop 0] = 0 := rfl
    omega

theorem closeText_toolInv {s : StState} {evs : List AEvent} (h : RunInv s evs)
    (hclosed : s.textBlockClosed = false) :
    ToolInv (closeTextForTool s).2 (evs ++ (closeTextForTool s).1) ∧
    (closeTextForTool s).2.toolIndex = s.toolIndex ∧
    (closeTextForTool s).2.lastToolIndex = s.lastToolIndex := by
  unfold closeTextForTool
  cases hsent : s.textSent with
  | true =>
    simp only [hsent, hclosed, Bool.not_false, Bool.and_true, if_true]
    exact ⟨toolInvAfterClose [] h rfl rfl rfl rfl rfl rfl rfl hclosed,
      by trivial, by trivial⟩
  | false =>
    cases hacc : (s.accumulatedText == "") with
    | false =>
      simp only [hsent, hclosed, hacc, Bool.not_false, Bool.and_true, Bool.false_and,
        Bool.and_false, Bool.false_eq_true, if_false, Bool.not_true, if_true]
      refine ⟨toolInvAfterClose [.textDelta 0 s.accumulatedText] h ?_ ?_ ?_ ?_
        rfl rfl rfl hclosed, by trivial, by trivial⟩
      · simp [countStarts, List.countP_cons, isBlockStartEv]
      · simp [countStops, List.countP_cons, isBlockStopEv]
      · simp [List.countP_cons, isMessageStopEv]
      · simp [List.countP_cons, isDoneEv]
    | true =>
      simp only [hsent, hclosed, hacc, Bool.not_false, Bool.and_true, Bool.false_and,
        Bool.and_false, Bool.false_eq_true, if_false, Bool.not_true, Bool.true_and, if_true]
      exact ⟨toolInvAfterClose [] h rfl rfl rfl rfl rfl rfl rfl hclosed,
      by trivial, by trivial⟩

theorem count_if_succ (k n a contrib : Nat) (hx : a = if k < n then 1 else 0)
    (hc : contrib = if n = k then 1 else 0) :
    a + contrib = if k < n + 1 then 1 else 0 := by
  rcases Nat.lt_trichotomy k n with h | h | h
  · rw [if_pos (by omega)]
    rw [if_pos h] at hx
    rw [if_neg (by omega)] at hc
    omega
  · rw [if_pos (by omega)]
    rw [if_neg (by omega)] at hx
    rw [if_pos (by omega)] at hc
    omega
  · rw [if_neg (by omega)]
    rw [if_neg (by omega)] at hx
    rw [if_neg (by omega)] at hc
    omega

theorem processToolCall_toolInv {s : StState} {evs : List AEvent} (h : ToolInv s evs)
    (tc : ToolCallDelta) :
    ToolInv (processToolCall s tc).2 (evs ++ (processToolCall s tc).1) ∧
    (processToolCall s tc).2.toolIndex.isSome = true ∧
    (processToolCall s tc).2.textBlockClosed = s.textBlockClosed := by
  have hnew : ∀ (E : List AEvent), countStops E = 0 → countStarts E = 0 →
      E.countP isMessageStopEv = 0 → E.countP isDoneEv = 0 →
      (∀ i, startIdxCount i E = 0) →
      ∀ (s1 : StState), s1.textBlockClosed = s.textBlockClosed →
        s1.lastToolIndex = s.lastToolIndex →
        s1.hasSentStopReason = s.hasSentStopReason →
        ToolInv s1 (evs ++ E) := by
    intro E e1 e2 e3 e4 e5 s1 f1 f2 f3
    exact (h.extendNeutralTool E e2 e1 e3 e4).congrStateTool f1 f2 f3
  have hnewTool : ∀ (E : List AEvent) (post : List AEvent),
      E = AEvent.blockStartTool (s.lastToolIndex + 1) (tc.id.getD "toolu_generated")
        tc.name :: post →
      countStops post = 0 → countStarts post = 0 →
      post.countP isMessageStopEv = 0 → post.countP isDoneEv = 0 →
      (∀ i, startIdxCount i post = 0) →
      ∀ (s1 : StState), s1.textBlockClosed = s.textBlockClosed →
        s1.lastToolIndex = s.lastToolIndex + 1 →
        s1.hasSentStopReason = s.hasSentStopReason →
        ToolInv s1 (evs ++ E) := by
    intro E post hE e1 e2 e3 e4 e5 s1 f1 f2 f3
    subst hE
    refine ⟨?_, ?_, ?_, ?_, ?_, ?_, by rw [f1]; exact h.closed,
      by rw [f3]; exact h.notSent, ?_, ?_, ?_⟩
    · have hx := h.start0
      rw [startIdxCount_append]
      simp only [startIdxCount_cons, startIdxOf, some_beq_some_nat, nat_succ_beq_zero,
        e5 0, Bool.false_eq_true, if_false]
      omega
    · have hx := h.stop0
      rw [stopIdxCount_append]
      have h0 : stopIdxCount 0 (AEvent.blockStartTool (s.lastToolIndex + 1)
          (tc.id.getD "toolu_generated") tc.name :: post) = 0 := by
        have := stopIdx_le_countStops 0 (AEvent.blockStartTool (s.lastToolIndex + 1)
          (tc.id.getD "toolu_generated") tc.name :: post)
        have hcs : countStops (AEvent.blockStartTool (s.lastToolIndex + 1)
            (tc.id.getD "toolu_generated") tc.name :: post) = 0 := by
          simp [isBlockStopEv, e1]
        omega
      omega
    · intro k
      rw [f2, startIdxCount_append]
      simp only [startIdxCount_cons, startIdxOf, some_beq_some_nat, nat_succ_beq_succ,
        e5 (k + 1), Nat.zero_add]
      refine count_if_succ k s.lastToolIndex _ _ (h.startTool k) ?_
      simp [beq_iff_eq]
    · intro k
      rw [stopIdxCount_append]
      have h0 : stopIdxCount (k + 1) (AEvent.blockStartTool (s.lastToolIndex + 1)
          (tc.id.getD "toolu_generated") tc.name :: post) = 0 := by
        have := stopIdx_le_countStops (k + 1) (AEvent.blockStartTool (s.lastToolIndex + 1)
          (tc.id.getD "toolu_generated") tc.name :: post)
        have hcs : countStops (AEvent.blockStartTool (s.lastToolIndex + 1)
            (tc.id.getD "toolu_generated") tc.name :: post) = 0 := by
          simp [isBlockStopEv, e1]
        omega
      have hx := h.stopTool k
      omega
    · rw [f2, countStarts_append]
      simp only [countStarts_cons, isBlockStartEv, if_true, e2]
      have hx := h.startsTotal
      omega
    · rw [countStops_append]
      have hcs : countStops (AEvent.blockStartTool (s.lastToolIndex + 1)
          (tc.id.getD "toolu_generated") tc.name :: post) = 0 := by
        simp [isBlockStopEv, e1]
      have hx := h.stopsTotal
      omega
    · rw [stopsOkAux_append]
      have hcs : countStops (AEvent.blockStartTool (s.lastToolIndex + 1)
          (tc.id.getD "toolu_generated") tc.name :: post) = 0 := by
        simp [isBlockStopEv, e1]
      simp [h.ordered, stopsOkAux_of_noStops _ _ hcs]
    · rw [List.countP_append]
      have hcs : (AEvent.blockStartTool (s.lastToolIndex + 1)
          (tc.id.getD "toolu_generated") tc.name :: post).countP isMessageStopEv = 0 := by
        simp [isMessageStopEv, e3]
      have hx := h.noMsgStop
      omega
    · rw [List.countP_append]
      have hcs : (AEvent.blockStartTool (s.lastToolIndex + 1)
          (tc.id.getD "toolu_generated") tc.name :: post).countP isDoneEv = 0 := by
        simp [isDoneEv, e4]
      have hx := h.noDone
      omega
  unfold processToolCall
  cases hn : (s.toolIndex != some tc.index) with
  | true =>
    cases ha : (tc.arguments != "") with
    | true =>
      simp only [hn, ha, if_true]
      refine ⟨?_, by trivial, by trivial⟩
      refine hnewTool _ [.jsonDelta (s.lastToolIndex + 1) tc.arguments] rfl ?_ ?_ ?_ ?_ ?_
        _ rfl rfl rfl
      · simp [isBlockStopEv]
      · simp [isBlockStartEv]
      · simp [isMessageStopEv]
      · simp [isDoneEv]
      · intro i; simp [startIdxOf]
    | false =>
      simp only [hn, ha, Bool.false_eq_true, if_false, if_true]
      refine ⟨?_, by trivial, by trivial⟩
      refine hnewTool _ [] rfl rfl rfl rfl rfl (fun i => rfl) _ rfl rfl rfl
  | false =>
    have heq : s.toolIndex = some tc.index := by simpa using hn
    cases ha : (tc.arguments != "") with
    | true =>
      simp only [hn, ha, Bool.false_eq_true, if_false, if_true]
      refine ⟨?_, by rw [heq]; rfl, by trivial⟩
      refine hnew [.jsonDelta s.lastToolIndex tc.arguments] ?_ ?_ ?_ ?_ ?_ _ rfl rfl rfl
      · simp [isBlockStopEv]
      · simp [isBlockStartEv]
      · simp [isMessageStopEv]
      · simp [isDoneEv]
      · intro i; simp [startIdxOf]
    | false =>
      simp only [hn, ha, Bool.false_eq_true, if_false]
      refine ⟨by simpa using h, by rw [heq]; rfl, by trivial⟩

theorem toolLoop_toolInv :
    ∀ (tcs : List ToolCallDelta) (s : StState) (evs : List AEvent), ToolInv s evs →
      ToolInv (toolLoop s tcs).2 (evs ++ (toolLoop s tcs).1) ∧
      (s.toolIndex.isSome = true → (toolLoop s tcs).2.toolIndex.isSome = true) ∧
      (tcs ≠ [] → (toolLoop s tcs).2.toolIndex.isSome = true) := by
  intro tcs
  induction tcs with
  | nil =>
    intro s evs h
    refine ⟨by simpa [toolLoop] using h, fun hs => hs, fun hne => absurd rfl hne⟩
  | cons tc rest ih =>
    intro s evs h
    have hstep := processToolCall_toolInv h tc
    cases hp : processToolCall s tc with
    | mk e s1 =>
      rw [hp] at hstep
      dsimp only at hstep
      have hrest := ih s1 (evs ++ e) hstep.1
      cases hl : toolLoop s1 rest with
      | mk e2 s2 =>
        rw [hl] at hrest
        dsimp only at hrest
        have hgoal : toolLoop s (tc :: rest) = (e ++ e2, s2) := by
          simp [toolLoop, hp, hl]
        rw [hgoal]
        dsimp only
        refine ⟨?_, fun _ => ?_, fun _ => ?_⟩
        · have hx := hrest.1
          rwa [List.append_assoc] at hx
        · exact hrest.2.1 hstep.2.1
        · exact hrest.2.1 hstep.2.1

theorem toolPhase_runInv {s : StState} {evs : List AEvent} (h : RunInv s evs)
    (tcs : List ToolCallDelta) :
    RunInv (toolPhase s tcs).2 (evs ++ (toolPhase s tcs).1) := by
  unfold toolPhase
  cases hemp : tcs.isEmpty with
  | true => simpa using h
  | false =>
    have hne : tcs ≠ [] := by
      cases tcs with
      | nil => simp at hemp
      | cons a l => simp
    simp only [hemp, Bool.false_eq_true, if_false]
    cases hni : s.toolIndex.isNone with
    | true =>
      have hnone : s.toolIndex = Option.none := by
        cases hx : s.toolIndex with
        | none => rfl
        | some v => rw [hx] at hni; exact absurd hni (by simp)
      have hclosed : s.textBlockClosed = false := by
        rw [h.closedIffTool, hnone]
        rfl
      simp only [hni, if_true]
      obtain ⟨hti, _, _⟩ := closeText_toolInv h hclosed
      cases hc : closeTextForTool s with
      | mk evsC sC =>
        rw [hc] at hti
        dsimp only at hti
        obtain ⟨hloop, _, hsome⟩ := toolLoop_toolInv tcs sC (evs ++ evsC) hti
        cases hl : toolLoop sC tcs with
        | mk evsT sT =>
          rw [hl] at hloop hsome
          dsimp only at hloop hsome ⊢
          have hfin : RunInv sT ((evs ++ evsC) ++ evsT) :=
            hloop.toRunInv (hsome hne)
          rwa [List.append_assoc] at hfin
    | false =>
      have hsome0 : s.toolIndex.isSome = true := by
        cases hx : s.toolIndex with
        | none => rw [hx] at hni; exact absurd hni (by simp)
        | some v => rfl
      have hclosed : s.textBlockClosed = true := h.closedIffTool.trans hsome0
      simp only [hni, Bool.false_eq_true, if_false]
      have hti : ToolInv s evs := h.toToolInv hclosed
      obtain ⟨hloop, _, hsome⟩ := toolLoop_toolInv tcs s evs hti
      cases hl : toolLoop s tcs with
      | mk evsT sT =>
        rw [hl] at hloop hsome
        dsimp only at hloop hsome ⊢
        exact hloop.toRunInv (hsome hne)

theorem collectStarts_of_noStarts :
    ∀ (xs : List AEvent) (started : List Nat), countStarts xs = 0 →
      collectStarts started xs = started := by
  intro xs
  induction xs with
  | nil => intro started _; rfl
  | cons e rest ih =>
    intro started h
    simp only [countStarts_cons] at h
    cases e
    all_goals simp [isBlockStartEv] at h
    all_goals simp only [collectStarts]
    all_goals exact ih started h

theorem rangeStops_counts (n : Nat) :
    countStarts ((List.range n).map (fun i => AEvent.blockStop (i + 1))) = 0 ∧
    countStops ((List.range n).map (fun i => AEvent.blockStop (i + 1))) = n ∧
    stopIdxCount 0 ((List.range n).map (fun i => AEvent.blockStop (i + 1))) = 0 ∧
    (∀ k, stopIdxCount (k + 1) ((List.range n).map (fun i => AEvent.blockStop (i + 1)))
      = if k < n then 1 else 0) ∧
    ((List.range n).map (fun i => AEvent.blockStop (i + 1))).countP isMessageStopEv = 0 ∧
    ((List.range n).map (fun i => AEvent.blockStop (i + 1))).countP isDoneEv = 0 ∧
    (∀ started : List Nat, (∀ k, k < n → (k + 1) ∈ started) →
      stopsOkAux started ((List.range n).map (fun i => AEvent.blockStop (i + 1))) = true) := by
  induction n with
  | zero =>
    refine ⟨rfl, rfl, rfl, ?_, rfl, rfl, fun started _ => rfl⟩
    intro k
    simp
  | succ m ih =>
    obtain ⟨i1, i2, i3, i4, i5, i6, i7⟩ := ih
    have hsplit : (List.range (m + 1)).map (fun i => AEvent.blockStop (i + 1))
        = (List.range m).map (fun i => AEvent.blockStop (i + 1))
          ++ [AEvent.blockStop (m + 1)] := by
      rw [List.range_succ, List.map_append]
      rfl
    rw [hsplit]
    refine ⟨?_, ?_, ?_, ?_, ?_, ?_, ?_⟩
    · rw [countStarts_append]
      simp [isBlockStartEv, i1]
    · rw [countStops_append]
      simp [isBlockStopEv, i2]
    · rw [stopIdxCount_append]
      simp [stopIdxOf, i3]
    · intro k
      rw [stopIdxCount_append]
      simp only [stopIdxCount_cons, stopIdxCount_nil, stopIdxOf, some_beq_some_nat,
        nat_succ_beq_succ, Nat.zero_add]
      refine count_if_succ k m _ _ (i4 k) ?_
      simp [beq_iff_eq]
    · rw [List.countP_append]
      simp [isMessageStopEv, i5]
    · rw [List.countP_append]
      simp [isDoneEv, i6]
    · intro started hmem
      rw [stopsOkAux_append]
      have hcoll : collectStarts started
          ((List.range m).map (fun i => AEvent.blockStop (i + 1))) = started :=
        collectStarts_of_noStarts _ _ i1
      rw [hcoll]
      have hok := i7 started (fun k hk => hmem k (by omega))
      have hm1 : (m + 1) ∈ started := hmem m (by omega)
      simp [hok, stopsOkAux, hm1]

theorem finalShape_assemble {s : StState} {evs mid : List AEvent} (h : RunInv s evs)
    (r : String)
    (hMstarts : countStarts mid = 0)
    (hM0 : stopIdxCount 0 mid = (if s.textBlockClosed then 0 else 1))
    (hMk : ∀ k, stopIdxCount (k + 1) mid = (if k < s.lastToolIndex then 1 else 0))
    (hMtot : countStops mid = s.lastToolIndex + (if s.textBlockClosed then 0 else 1))
    (hMms : mid.countP isMessageStopEv = 0) (hMd : mid.countP isDoneEv = 0)
    (hMord : stopsOkAux (collectStarts [] evs) mid = true) :
    FinalShape (evs ++ (mid ++ [.messageDelta r, .messageStop, .doneMarker])) := by
  have hsi : ∀ i, startIdxCount i mid = 0 := fun i =>
    Nat.le_zero.mp (hMstarts ▸ startIdx_le_countStarts i mid)
  have hassoc : evs ++ (mid ++ [AEvent.messageDelta r, .messageStop, .doneMarker])
      = (evs ++ mid) ++ [AEvent.messageDelta r, .messageStop, .doneMarker] :=
    (List.append_assoc _ _ _).symm
  rw [hassoc]
  refine ⟨⟨evs ++ mid, r, rfl, ?_, ?_⟩, ?_, ?_, ?_, ?_⟩
  · rw [List.countP_append]
    have hx := h.noMsgStop
    omega
  · rw [List.countP_append]
    have hx := h.noDone
    omega
  · intro i
    have t1 : stopIdxCount i [AEvent.messageDelta r, .messageStop, .doneMarker] = 0 := rfl
    have t2 : startIdxCount i [AEvent.messageDelta r, .messageStop, .doneMarker] = 0 := rfl
    rw [stopIdxCount_append, stopIdxCount_append, startIdxCount_append, startIdxCount_append,
      t1, t2]
    cases i with
    | zero =>
      have hx := h.stop0
      have hy := h.start0
      have hz := hsi 0
      cases hcl : s.textBlockClosed <;> rw [hcl] at hx <;> rw [hcl] at hM0 <;>
        simp at hx hM0 <;> omega
    | succ k =>
      have hx := h.stopTool k
      have hy := h.startTool k
      have hz := hsi (k + 1)
      have hw := hMk k
      by_cases hk : k < s.lastToolIndex
      · rw [if_pos hk] at hy hw
        omega
      · rw [if_neg hk] at hy hw
        omega
  · intro i
    have t2 : startIdxCount i [AEvent.messageDelta r, .messageStop, .doneMarker] = 0 := rfl
    rw [startIdxCount_append, startIdxCount_append, t2]
    cases i with
    | zero =>
      have hy := h.start0
      have hz := hsi 0
      omega
    | succ k =>
      have hy := h.startTool k
      have hz := hsi (k + 1)
      by_cases hk : k < s.lastToolIndex <;> simp [hk] at hy <;> omega
  · have t1 : countStops [AEvent.messageDelta r, .messageStop, .doneMarker] = 0 := rfl
    have t2 : countStarts [AEvent.messageDelta r, .messageStop, .doneMarker] = 0 := rfl
    rw [countStarts_append, countStarts_append, countStops_append, countStops_append, t1, t2]
    have hx := h.startsTotal
    have hy := h.stopsTotal
    cases hcl : s.textBlockClosed <;> rw [hcl] at hy <;> rw [hcl] at hMtot <;>
      simp at hy hMtot <;> omega
  · rw [stopsOkAux_append, stopsOkAux_append]
    have hterm : ∀ st : List Nat,
        stopsOkAux st [AEvent.messageDelta r, .messageStop, .doneMarker] = true :=
      fun _ => rfl
    simp [h.ordered, hMord, hterm]

theorem finishEvents_final {s : StState} {evs : List AEvent} (h : RunInv s evs)
    (fr : String) :
    FinalShape (evs ++ finishEvents s fr) := by
  unfold finishEvents
  obtain ⟨r1, r2, r3, r4, r5, r6, r7⟩ := rangeStops_counts s.lastToolIndex
  cases hsome : s.toolIndex.isSome with
  | true =>
    have hclosed : s.textBlockClosed = true := h.closedIffTool.trans hsome
    simp only [hsome, if_true, hclosed, Bool.not_true, Bool.false_eq_true, if_false,
      List.nil_append, List.append_nil]
    refine finalShape_assemble h (mapStopReasonStreaming fr) r1 ?_ r4 ?_ r5 r6 ?_
    · rw [hclosed]
      simpa using r3
    · rw [hclosed]
      simpa using r2
    · refine r7 _ ?_
      intro k hk
      refine mem_collectStarts_of_start (k + 1) evs [] (Or.inl ?_)
      rw [h.startTool k, if_pos hk]
      omega
  | false =>
    have hnone : s.toolIndex = Option.none := by
      cases hx : s.toolIndex with
      | none => rfl
      | some v => rw [hx] at hsome; exact absurd hsome (by simp)
    have hlast : s.lastToolIndex = 0 := h.noneZero hnone
    have hclosed : s.textBlockClosed = false := h.closedIffTool.trans hsome
    simp only [hsome, Bool.false_eq_true, if_false, hclosed, Bool.not_false, if_true,
      List.nil_append]
    have hmem0 : (0 : Nat) ∈ collectStarts [] evs :=
      mem_collectStarts_of_start 0 evs [] (Or.inl (by rw [h.start0]; omega))
    cases hfl : (!(s.accumulatedText == "") && !s.textSent) with
    | true =>
      simp only [hfl, if_true]
      refine finalShape_assemble h (mapStopReasonStreaming fr) rfl ?_ ?_ ?_ rfl rfl ?_
      · rw [hclosed]
        rfl
      · intro k
        rw [hlast]
        simp [stopIdxOf]
      · rw [hclosed, hlast]
        rfl
      · simp [stopsOkAux, hmem0]
    | false =>
      simp only [hfl, Bool.false_eq_true, if_false, List.nil_append]
      refine finalShape_assemble h (mapStopReasonStreaming fr) rfl ?_ ?_ ?_ rfl rfl ?_
      · rw [hclosed]
        rfl
      · intro k
        rw [hlast]
        simp [stopIdxOf]
      · rw [hclosed, hlast]
        rfl
      · simp [stopsOkAux, hmem0]

theorem endOfStream_final {s : StState} {evs : List AEvent} (h : RunInv s evs)
    (hnone : s.toolIndex = Option.none) :
    FinalShape (evs ++ endOfStreamEvents s) := by
  unfold endOfStreamEvents
  rw [h.notSent]
  have hsome : s.toolIndex.isSome = false := by rw [hnone]; rfl
  have hlast : s.lastToolIndex = 0 := h.noneZero hnone
  have hclosed : s.textBlockClosed = false := h.closedIffTool.trans hsome
  simp only [hsome, Bool.false_eq_true, if_false, Bool.not_false, if_true, List.nil_append]
  have hmem0 : (0 : Nat) ∈ collectStarts [] evs :=
    mem_collectStarts_of_start 0 evs [] (Or.inl (by rw [h.start0]; omega))
  have hshape : [AEvent.blockStop 0, .messageDelta "end_turn", .messageStop, .doneMarker]
      = [AEvent.blockStop 0] ++ [.messageDelta "end_turn", .messageStop, .doneMarker] := rfl
  rw [hshape]
  refine finalShape_assemble h "end_turn" rfl ?_ ?_ ?_ rfl rfl ?_
  · rw [hclosed]
    rfl
  · intro k
    rw [hlast]
    simp [stopIdxOf]
  · rw [hclosed, hlast]
    rfl
  · simp [stopsOkAux, hmem0]

theorem endOfStream_terminal {s : StState} {evs : List AEvent} (h : RunInv s evs) :
    TerminalShape (evs ++ endOfStreamEvents s) := by
  unfold endOfStreamEvents
  rw [h.notSent]
  obtain ⟨r1, r2, r3, r4, r5, r6, r7⟩ := rangeStops_counts s.lastToolIndex
  simp only [Bool.not_false, if_true]
  cases hsome : s.toolIndex.isSome with
  | true =>
    simp only [hsome, if_true]
    refine ⟨evs ++ ((List.range s.lastToolIndex).map (fun i => AEvent.blockStop (i + 1))
      ++ [AEvent.blockStop 0]), "end_turn", by simp, ?_, ?_⟩
    · simp only [List.countP_append]
      have hx := h.noMsgStop
      have t0 : List.countP isMessageStopEv [AEvent.blockStop 0] = 0 := rfl
      omega
    · simp only [List.countP_append]
      have hx := h.noDone
      have t0 : List.countP isDoneEv [AEvent.blockStop 0] = 0 := rfl
      omega
  | false =>
    simp only [hsome, Bool.false_eq_true, if_false, List.nil_append]
    refine ⟨evs ++ [AEvent.blockStop 0], "end_turn", by simp, ?_, ?_⟩
    · simp only [List.countP_append]
      have hx := h.noMsgStop
      have t0 : List.countP isMessageStopEv [AEvent.blockStop 0] = 0 := rfl
      omega
    · simp only [List.countP_append]
      have hx := h.noDone
      have t0 : List.countP isDoneEv [AEvent.blockStop 0] = 0 := rfl
      omega

theorem fatal_terminal {s : StState} {evs : List AEvent} (h : RunInv s evs) :
    TerminalShape (evs ++ fatalTail) :=
  ⟨evs, "error", rfl, h.noMsgStop, h.noDone⟩

theorem processChunk_inv {s : StState} {evs : List AEvent} (h : RunInv s evs) (c : Chunk) :
    ((processChunk s c).2.2 = false →
      RunInv (processChunk s c).2.1 (evs ++ (processChunk s c).1)) ∧
    ((processChunk s c).2.2 = true →
      FinalShape (evs ++ (processChunk s c).1)
        ∧ (processChunk s c).2.1.hasSentStopReason = true) := by
  cases c with
  | malformed =>
    refine ⟨fun _ => by simpa [processChunk] using h, fun hfin => ?_⟩
    simp [processChunk] at hfin
  | chunkData usage choice =>
    have h0 : RunInv (applyUsage s usage) evs := by
      cases usage with
      | none => exact h
      | some pq =>
        cases pq with
        | mk p q => exact h.congrStateRun rfl rfl rfl rfl
    cases choice with
    | none =>
      refine ⟨fun _ => ?_, fun hfin => ?_⟩
      · simpa [processChunk, applyUsage] using h0
      · simp [processChunk] at hfin
    | some d =>
      have h1 := textPhase_runInv h0 d.content
      cases ht : textPhase (applyUsage s usage) d.content with
      | mk evs1 s1 =>
        rw [ht] at h1
        dsimp only at h1
        have h2 := toolPhase_runInv h1 d.toolCalls
        cases htp : toolPhase s1 d.toolCalls with
        | mk evs2 s2 =>
          rw [htp] at h2
          dsimp only at h2
          cases hfr : d.finishReason with
          | none =>
            have hred : processChunk s (.chunkData usage (some d))
                = (evs1 ++ evs2, s2, false) := by
              simp [processChunk, ht, htp, finishPhase, hfr, List.append_nil]
            rw [hred]
            refine ⟨fun _ => ?_, fun hfin => ?_⟩
            · have hx := h2
              rw [List.append_assoc] at hx
              exact hx
            · simp at hfin
          | some fr =>
            cases hne : (fr != "") with
            | false =>
              have hred : processChunk s (.chunkData usage (some d))
                  = (evs1 ++ evs2, s2, false) := by
                simp [processChunk, ht, htp, finishPhase, hfr, hne, List.append_nil]
              rw [hred]
              refine ⟨fun _ => ?_, fun hfin => ?_⟩
              · have hx := h2
                rw [List.append_assoc] at hx
                exact hx
              · simp at hfin
            | true =>
              have hred : processChunk s (.chunkData usage (some d))
                  = (evs1 ++ evs2 ++ finishEvents s2 fr,
                     { s2 with hasSentStopReason := true }, true) := by
                simp [processChunk, ht, htp, finishPhase, hfr, hne, h2.notSent]
              rw [hred]
              refine ⟨fun hfin => ?_, fun _ => ⟨?_, rfl⟩⟩
              · simp at hfin
              · have hx := finishEvents_final h2 fr
                have hperm : ((evs ++ evs1) ++ evs2) ++ finishEvents s2 fr
                    = evs ++ (evs1 ++ evs2 ++ finishEvents s2 fr) := by
                  simp [List.append_assoc]
                rwa [hperm] at hx

theorem runChunks_inv :
    ∀ (cs : List Chunk) (s : StState) (evs : List AEvent), RunInv s evs →
      ((runChunks s cs).2.2 = false →
        RunInv (runChunks s cs).2.1 (evs ++ (runChunks s cs).1)) ∧
      ((runChunks s cs).2.2 = true →
        FinalShape (evs ++ (runChunks s cs).1)
          ∧ (runChunks s cs).2.1.hasSentStopReason = true) := by
  intro cs
  induction cs with
  | nil =>
    intro s evs h
    refine ⟨fun _ => by simpa [runChunks] using h, fun hfin => ?_⟩
    simp [runChunks] at hfin
  | cons c rest ih =>
    intro s evs h
    have hc := processChunk_inv h c
    cases hp : processChunk s c with
    | mk e r1 =>
      cases r1 with
      | mk s1 fin =>
        rw [hp] at hc
        dsimp only at hc
        cases fin with
        | true =>
          have hrun : runChunks s (c :: rest) = (e, s1, true) := by
            simp [runChunks, hp]
          rw [hrun]
          dsimp only
          refine ⟨fun hf => ?_, fun _ => hc.2 rfl⟩
          simp at hf
        | false =>
          have h1 := hc.1 rfl
          have hrest := ih s1 (evs ++ e) h1
          cases hr : runChunks s1 rest with
          | mk e2 r2 =>
            cases r2 with
            | mk s2 fin2 =>
              rw [hr] at hrest
              dsimp only at hrest
              have hrun : runChunks s (c :: rest) = (e ++ e2, s2, fin2) := by
                simp [runChunks, hp, hr]
              rw [hrun]
              dsimp only
              refine ⟨fun hf => ?_, fun hf => ?_⟩
              · have hx := hrest.1 hf
                rwa [List.append_assoc] at hx
              · obtain ⟨hx, hy⟩ := hrest.2 hf
                rw [List.append_assoc] at hx
                exact ⟨hx, hy⟩

theorem beforeMessageStop_append :
    ∀ (xs ys : List AEvent), xs.countP isMessageStopEv = 0 →
      beforeMessageStop (xs ++ ys) = xs ++ beforeMessageStop ys := by
  intro xs
  induction xs with
  | nil => intro ys _; rfl
  | cons e rest ih =>
    intro ys h
    rw [List.countP_cons] at h
    have he : isMessageStopEv e = false := by
      cases hev : isMessageStopEv e with
      | false => rfl
      | true => rw [hev] at h; simp at h
    have hr : rest.countP isMessageStopEv = 0 := by
      rw [he] at h
      simpa using h
    simp [beforeMessageStop, he, ih ys hr]

theorem c1Property_of_final {evs : List AEvent} (h : FinalShape evs) : c1Property evs := by
  refine ⟨h.totalEq, h.ordered, ?_⟩
  intro i hi
  obtain ⟨pre, r, heq, h1, h2⟩ := h.terminal.decomp
  have hbefore : beforeMessageStop evs = pre ++ [AEvent.messageDelta r] := by
    rw [heq, beforeMessageStop_append pre _ h1]
    rfl
  have htail : stopIdxCount i [AEvent.messageDelta r, .messageStop, .doneMarker] = 0 := rfl
  have hpre : stopIdxCount i evs = stopIdxCount i pre := by
    rw [heq, stopIdxCount_append]
    omega
  have hmd : stopIdxCount i (pre ++ [AEvent.messageDelta r]) = stopIdxCount i pre := by
    rw [stopIdxCount_append]
    have : stopIdxCount i [AEvent.messageDelta r] = 0 := rfl
    omega
  have he := h.perIdxEq i
  have hl := h.perIdxLe i
  rw [hbefore, hmd]
  omega

theorem terminalShape_c2 {evs : List AEvent} (h : TerminalShape evs) :
    evs.countP isMessageStopEv = 1 ∧ evs.countP isDoneEv = 1 ∧
    ∃ pre, evs = pre ++ [AEvent.doneMarker] := by
  obtain ⟨pre, r, heq, h1, h2⟩ := h.decomp
  subst heq
  refine ⟨?_, ?_, ⟨pre ++ [AEvent.messageDelta r, .messageStop], by simp⟩⟩
  · rw [List.countP_append]
    have : List.countP isMessageStopEv [AEvent.messageDelta r, .messageStop, .doneMarker]
        = 1 := rfl
    omega
  · rw [List.countP_append]
    have : List.countP isDoneEv [AEvent.messageDelta r, .messageStop, .doneMarker] = 1 := rfl
    omega

/-- C1 (amended): for every chunk sequence that either reaches a
finish-reason return or never processes a tool-call delta, the emitted
stream balances `content_block_start` and `content_block_stop` events,
every stop is at a previously started index, and every started index
is stopped exactly once before `message_stop`.  (When the stream ends
without a finish reason after tool-call deltas, block 0 is stopped
twice; see the counterexample.) -/
theorem c1_block_closure :
    ∀ (cs : List Chunk),
      ((runChunks initState cs).2.2 = true ∨
        (runChunks initState cs).2.1.toolIndex = Option.none) →
      c1Property (handle_streaming cs false) := by
  intro cs hcase
  have hinv := runChunks_inv cs initState streamHeader runInv_init
  cases hrc : runChunks initState cs with
  | mk e r =>
    cases r with
    | mk s fin =>
      rw [hrc] at hinv hcase
      dsimp only at hinv hcase
      cases fin with
      | true =>
        have hfin := hinv.2 rfl
        have hred : handle_streaming cs false = streamHeader ++ e := by
          simp [handle_streaming, hrc]
        rw [hred]
        exact c1Property_of_final hfin.1
      | false =>
        have hrun := hinv.1 rfl
        have hnone : s.toolIndex = Option.none := by
          rcases hcase with hcase | hcase
          · exact absurd hcase (by simp)
          · exact hcase
        have hred : handle_streaming cs false
            = (streamHeader ++ e) ++ endOfStreamEvents s := by
          simp [handle_streaming, hrc]
        rw [hred]
        exact c1Property_of_final (endOfStream_final hrun hnone)

/-- Witness for C1 at the pure-text scenario. -/
theorem c1_block_closure_witness :
    ((runChunks initState
      [Chunk.chunkData Option.none (some ⟨some "Hi", [], Option.none⟩),
       Chunk.chunkData Option.none (some ⟨Option.none, [], some "stop"⟩)]).2.2 = true ∨
      (runChunks initState
        [Chunk.chunkData Option.none (some ⟨some "Hi", [], Option.none⟩),
         Chunk.chunkData Option.none (some ⟨Option.none, [], some "stop"⟩)]).2.1.toolIndex
        = Option.none) ∧
    c1Property (handle_streaming
      [Chunk.chunkData Option.none (some ⟨some "Hi", [], Option.none⟩),
       Chunk.chunkData Option.none (some ⟨Option.none, [], some "stop"⟩)] false) :=
  ⟨Or.inl rfl,
    c1_block_closure
      [Chunk.chunkData Option.none (some ⟨some "Hi", [], Option.none⟩),
       Chunk.chunkData Option.none (some ⟨Option.none, [], some "stop"⟩)]
      (Or.inl rfl)⟩

/-- Counterexample for C1 as stated: a single tool-call delta chunk
with no finish reason.  The first tool delta closes text block 0, and
the no-finish-reason path at stream end closes block 0 again
unconditionally, so the stream has 2 starts but 3 stops. -/
theorem c1_counterexample :
    ¬ c1Property (handle_streaming
      [Chunk.chunkData Option.none
        (some ⟨Option.none, [⟨0, some "t1", "search", ""⟩], Option.none⟩)] false) :=
  fun h => absurd h.1 (by decide)

/-- C2: every stream — finished by a finish reason, ended without one,
with malformed chunks skipped, or aborted by a fatal source error —
emits exactly one `message_stop` and exactly one terminal sentinel,
and ends with the sentinel. -/
theorem c2_single_terminal :
    ∀ (cs : List Chunk) (genRaises : Bool),
      (handle_streaming cs genRaises).countP isMessageStopEv = 1 ∧
      (handle_streaming cs genRaises).countP isDoneEv = 1 ∧
      ∃ pre, handle_streaming cs genRaises = pre ++ [AEvent.doneMarker] := by
  intro cs genRaises
  have hinv := runChunks_inv cs initState streamHeader runInv_init
  cases hrc : runChunks initState cs with
  | mk e r =>
    cases r with
    | mk s fin =>
      rw [hrc] at hinv
      dsimp only at hinv
      cases fin with
      | true =>
        have hfin := hinv.2 rfl
        have hred : handle_streaming cs genRaises = streamHeader ++ e := by
          simp [handle_streaming, hrc]
        rw [hred]
        exact terminalShape_c2 hfin.1.terminal
      | false =>
        have hrun := hinv.1 rfl
        cases genRaises with
        | true =>
          have hred : handle_streaming cs true = (streamHeader ++ e) ++ fatalTail := by
            simp [handle_streaming, hrc]
          rw [hred]
          exact terminalShape_c2 (fatal_terminal hrun)
        | false =>
          have hred : handle_streaming cs false
              = (streamHeader ++ e) ++ endOfStreamEvents s := by
            simp [handle_streaming, hrc]
          rw [hred]
          exact terminalShape_c2 (endOfStream_terminal hrun)

theorem textPhase_closed {s : StState} (hclosed : s.textBlockClosed = true)
    (o : Option String) :
    (textPhase s o).1 = [] ∧ (textPhase s o).2.textBlockClosed = true := by
  unfold textPhase
  cases o with
  | none => exact ⟨rfl, hclosed⟩
  | some t =>
    cases ht : (t == "") with
    | true => simp [ht, hclosed]
    | false => simp [ht, hclosed]

theorem textPhase_accum {s : StState} (t : String) (ht : (t == "") = false) :
    (textPhase s (some t)).2.accumulatedText = s.accumulatedText ++ t := by
  unfold textPhase
  cases hc : (({ s with accumulatedText := s.accumulatedText ++ t } : StState).toolIndex.isNone
      && !({ s with accumulatedText := s.accumulatedText ++ t } : StState).textBlockClosed) with
  | true => simp [ht, hc]
  | false => simp [ht, hc]

theorem closeText_closed {s : StState} (hclosed : s.textBlockClosed = true) :
    (closeTextForTool s).1 = [] ∧ (closeTextForTool s).2 = s := by
  unfold closeTextForTool
  simp [hclosed]

theorem closeText_accum (s : StState) :
    (closeTextForTool s).2.accumulatedText = s.accumulatedText := by
  unfold closeTextForTool
  split
  · rfl
  · split
    · rfl
    · split
      · rfl
      · rfl

theorem processToolCall_noText (s : StState) (tc : ToolCallDelta) :
    (processToolCall s tc).1.countP isTextDeltaEv = 0 ∧
    (processToolCall s tc).2.textBlockClosed = s.textBlockClosed ∧
    (processToolCall s tc).2.accumulatedText = s.accumulatedText := by
  unfold processToolCall
  cases hn : (s.toolIndex != some tc.index) <;> cases ha : (tc.arguments != "") <;>
    simp [hn, ha, isTextDeltaEv, List.countP_cons]

theorem toolLoop_noText :
    ∀ (tcs : List ToolCallDelta) (s : StState),
      (toolLoop s tcs).1.countP isTextDeltaEv = 0 ∧
      (toolLoop s tcs).2.textBlockClosed = s.textBlockClosed ∧
      (toolLoop s tcs).2.accumulatedText = s.accumulatedText := by
  intro tcs
  induction tcs with
  | nil => intro s; exact ⟨rfl, rfl, rfl⟩
  | cons tc rest ih =>
    intro s
    have hstep := processToolCall_noText s tc
    cases hp : processToolCall s tc with
    | mk e s1 =>
      rw [hp] at hstep
      dsimp only at hstep
      have hrest := ih s1
      cases hl : toolLoop s1 rest with
      | mk e2 s2 =>
        rw [hl] at hrest
        dsimp only at hrest
        have hgoal : toolLoop s (tc :: rest) = (e ++ e2, s2) := by
          simp [toolLoop, hp, hl]
        rw [hgoal]
        dsimp only
        refine ⟨?_, hrest.2.1.trans hstep.2.1, hrest.2.2.trans hstep.2.2⟩
        rw [List.countP_append, hstep.1, hrest.1]

theorem toolPhase_noText {s : StState} (hclosed : s.textBlockClosed = true)
    (tcs : List ToolCallDelta) :
    (toolPhase s tcs).1.countP isTextDeltaEv = 0 ∧
    (toolPhase s tcs).2.textBlockClosed = true ∧
    (toolPhase s tcs).2.accumulatedText = s.accumulatedText := by
  unfold toolPhase
  cases hemp : tcs.isEmpty with
  | true => exact ⟨rfl, hclosed, rfl⟩
  | false =>
    simp only [hemp, Bool.false_eq_true, if_false]
    have hcl := closeText_closed hclosed
    cases hni : s.toolIndex.isNone with
    | true =>
      simp only [hni, if_true, hcl.1, hcl.2, List.nil_append]
      have hl := toolLoop_noText tcs s
      exact ⟨hl.1, hl.2.1.trans hclosed, hl.2.2⟩
    | false =>
      simp only [hni, Bool.false_eq_true, if_false, List.nil_append]
      have hl := toolLoop_noText tcs s
      exact ⟨hl.1, hl.2.1.trans hclosed, hl.2.2⟩

theorem rangeStops_noText (n : Nat) :
    ((List.range n).map (fun i => AEvent.blockStop (i + 1))).countP isTextDeltaEv = 0 := by
  rw [List.countP_eq_zero]
  intro a ha
  obtain ⟨i, _, rfl⟩ := List.mem_map.mp ha
  simp [isTextDeltaEv]

theorem finishEvents_noText {s : StState} (hclosed : s.textBlockClosed = true) (fr : String) :
    (finishEvents s fr).countP isTextDeltaEv = 0 := by
  unfold finishEvents
  cases hsome : s.toolIndex.isSome with
  | true =>
    simp [hsome, hclosed, List.countP_append, rangeStops_noText, isTextDeltaEv]
  | false =>
    simp [hsome, hclosed, List.countP_append, isTextDeltaEv]

theorem finishPhase_noText {s : StState} (hclosed : s.textBlockClosed = true)
    (fr : Option String) :
    (finishPhase s fr).1.countP isTextDeltaEv = 0 ∧
    (finishPhase s fr).2.1.textBlockClosed = true ∧
    (finishPhase s fr).2.1.accumulatedText = s.accumulatedText := by
  unfold finishPhase
  cases fr with
  | none => exact ⟨rfl, hclosed, rfl⟩
  | some r =>
    cases hc : (r != "" && !s.hasSentStopReason) with
    | true =>
      simp only [hc, if_true]
      exact ⟨finishEvents_noText hclosed r, by simp [hclosed], by trivial⟩
    | false =>
      simp only [hc, Bool.false_eq_true, if_false]
      exact ⟨by trivial, hclosed, by trivial⟩

theorem processChunk_noText {s : StState} (hclosed : s.textBlockClosed = true) (c : Chunk) :
    (processChunk s c).1.countP isTextDeltaEv = 0 ∧
    (processChunk s c).2.1.textBlockClosed = true := by
  cases c with
  | malformed => exact ⟨rfl, hclosed⟩
  | chunkData usage choice =>
    have hu : (applyUsage s usage).textBlockClosed = true := by
      cases usage with
      | none => exact hclosed
      | some pq => cases pq with | mk p q => exact hclosed
    cases choice with
    | none => exact ⟨rfl, hu⟩
    | some d =>
      have h1 := textPhase_closed hu d.content
      cases ht : textPhase (applyUsage s usage) d.content with
      | mk evs1 s1 =>
        rw [ht] at h1
        dsimp only at h1
        have h2 := toolPhase_noText h1.2 d.toolCalls
        cases htp : toolPhase s1 d.toolCalls with
        | mk evs2 s2 =>
          rw [htp] at h2
          dsimp only at h2
          have h3 := finishPhase_noText h2.2.1 d.finishReason
          cases hfp : finishPhase s2 d.finishReason with
          | mk evs3 r3 =>
            cases r3 with
            | mk s3 fin =>
              rw [hfp] at h3
              dsimp only at h3
              have hred : processChunk s (.chunkData usage (some d))
                  = (evs1 ++ evs2 ++ evs3, s3, fin) := by
                simp [processChunk, ht, htp, hfp]
              rw [hred]
              dsimp only
              refine ⟨?_, h3.2.1⟩
              rw [List.countP_append, List.countP_append, h1.1, h2.1, h3.1]
              rfl

theorem runChunks_noText :
    ∀ (cs : List Chunk) (s : StState), s.textBlockClosed = true →
      (runChunks s cs).1.countP isTextDeltaEv = 0 := by
  intro cs
  induction cs with
  | nil => intro s _; rfl
  | cons c rest ih =>
    intro s hclosed
    have hc := processChunk_noText hclosed c
    cases hp : processChunk s c with
    | mk e r1 =>
      cases r1 with
      | mk s1 fin =>
        rw [hp] at hc
        dsimp only at hc
        cases fin with
        | true =>
          have hrun : runChunks s (c :: rest) = (e, s1, true) := by
            simp [runChunks, hp]
          rw [hrun]
          exact hc.1
        | false =>
          have hrun : runChunks s (c :: rest)
              = (e ++ (runChunks s1 rest).1, (runChunks s1 rest).2.1,
                 (runChunks s1 rest).2.2) := by
            simp [runChunks, hp]
          rw [hrun]
          dsimp only
          rw [List.countP_append, hc.1, ih s1 hc.2]

theorem processChunk_accumulates {s : StState} (u : Option (Nat × Nat))
    (tcs : List ToolCallDelta) (fr : Option String) (t : String) (ht : t ≠ "") :
    (processChunk s (.chunkData u (some ⟨some t, tcs, fr⟩))).2.1.accumulatedText
      = s.accumulatedText ++ t := by
  have hu : (applyUsage s u).accumulatedText = s.accumulatedText := by
    cases u with
    | none => rfl
    | some pq => cases pq with | mk p q => rfl
  have htb : ((t == "") : Bool) = false := by
    cases hc : ((t == "") : Bool) with
    | false => rfl
    | true => exact absurd (by simpa using hc) ht
  have h1 := @textPhase_accum (applyUsage s u) t htb
  cases hx : textPhase (applyUsage s u) (some t) with
  | mk evs1 s1 =>
    rw [hx] at h1
    dsimp only at h1
    have h2 : (toolPhase s1 tcs).2.accumulatedText = s1.accumulatedText := by
      unfold toolPhase
      cases hemp : tcs.isEmpty with
      | true => rfl
      | false =>
        simp only [hemp, Bool.false_eq_true, if_false]
        cases hni : s1.toolIndex.isNone with
        | true =>
          simp only [hni, if_true]
          exact ((toolLoop_noText tcs (closeTextForTool s1).2).2.2).trans
            (closeText_accum s1)
        | false =>
          simp only [hni, Bool.false_eq_true, if_false]
          exact (toolLoop_noText tcs s1).2.2
    cases htp : toolPhase s1 tcs with
    | mk evs2 s2 =>
      rw [htp] at h2
      dsimp only at h2
      have h3 : (finishPhase s2 fr).2.1.accumulatedText = s2.accumulatedText := by
        unfold finishPhase
        cases fr with
        | none => rfl
        | some r =>
          cases hc : (r != "" && !s2.hasSentStopReason) with
          | true => simp only [hc, if_true]
          | false => simp only [hc, Bool.false_eq_true, if_false]
      cases hfp : finishPhase s2 fr with
      | mk evs3 r3 =>
        cases r3 with
        | mk s3 fin =>
          rw [hfp] at h3
          dsimp only at h3
          have hred : processChunk s (.chunkData u (some ⟨some t, tcs, fr⟩))
              = (evs1 ++ evs2 ++ evs3, s3, fin) := by
            simp [processChunk, hx, htp, hfp]
          rw [hred]
          dsimp only
          rw [h3, h2, h1, hu]

/-- C10: once a tool-call delta has been processed (so text block 0 is
closed), no later event of the stream is a `text_delta` — late text is
accumulated into the buffer but never emitted, and the finish flush
skips it because the text block is already closed. -/
theorem c10_late_text_dropped :
    ∀ (pre post : List Chunk) (evs1 : List AEvent) (s1 : StState),
      runChunks initState pre = (evs1, s1, false) →
      s1.toolIndex.isSome = true →
      (runChunks s1 post).1.countP isTextDeltaEv = 0 ∧
      (∀ (t : String) (u : Option (Nat × Nat)) (tcs : List ToolCallDelta)
        (fr : Option String), t ≠ "" →
        (processChunk s1 (.chunkData u (some ⟨some t, tcs, fr⟩))).2.1.accumulatedText
          = s1.accumulatedText ++ t) := by
  intro pre post evs1 s1 hrun hsome
  have hinv := runChunks_inv pre initState streamHeader runInv_init
  rw [hrun] at hinv
  dsimp only at hinv
  have hrinv := hinv.1 rfl
  have hclosed : s1.textBlockClosed = true := hrinv.closedIffTool.trans hsome
  exact ⟨runChunks_noText post s1 hclosed,
    fun t u tcs fr ht => processChunk_accumulates u tcs fr t ht⟩

/-- Witness for C10 at a concrete stream: a tool-call chunk, then a
late text chunk. -/
theorem c10_late_text_dropped_witness :
    runChunks initState
      [Chunk.chunkData Option.none
        (some ⟨Option.none, [⟨0, some "t1", "search", ""⟩], Option.none⟩)]
      = ([AEvent.blockStop 0, .blockStartTool 1 "t1" "search"],
         { toolIndex := some 0, toolContent := "", accumulatedText := "",
           textSent := false, textBlockClosed := true, inputTokens := 0,
           outputTokens := 0, hasSentStopReason := false, lastToolIndex := 1 }, false) ∧
    ({ toolIndex := some 0, toolContent := "", accumulatedText := "",
       textSent := false, textBlockClosed := true, inputTokens := 0,
       outputTokens := 0, hasSentStopReason := false,
       lastToolIndex := 1 } : StState).toolIndex.isSome = true ∧
    ("late" : String) ≠ "" ∧
    ((runChunks
      { toolIndex := some 0, toolContent := "", accumulatedText := "",
        textSent := false, textBlockClosed := true, inputTokens := 0,
        outputTokens := 0, hasSentStopReason := false, lastToolIndex := 1 }
      [Chunk.chunkData Option.none (some ⟨some "late", [], Option.none⟩)]).1.countP
        isTextDeltaEv = 0 ∧
      (processChunk
        { toolIndex := some 0, toolContent := "", accumulatedText := "",
          textSent := false, textBlockClosed := true, inputTokens := 0,
          outputTokens := 0, hasSentStopReason := false, lastToolIndex := 1 }
        (.chunkData Option.none (some ⟨some "late", [], Option.none⟩))).2.1.accumulatedText
        = "" ++ "late") :=
  ⟨rfl, rfl, by decide,
    ⟨(c10_late_text_dropped
      [Chunk.chunkData Option.none
        (some ⟨Option.none, [⟨0, some "t1", "search", ""⟩], Option.none⟩)]
      [Chunk.chunkData Option.none (some ⟨some "late", [], Option.none⟩)]
      [AEvent.blockStop 0, .blockStartTool 1 "t1" "search"]
      { toolIndex := some 0, toolContent := "", accumulatedText := "",
        textSent := false, textBlockClosed := true, inputTokens := 0,
        outputTokens := 0, hasSentStopReason := false, lastToolIndex := 1 }
      rfl rfl).1,
     (c10_late_text_dropped
      [Chunk.chunkData Option.none
        (some ⟨Option.none, [⟨0, some "t1", "search", ""⟩], Option.none⟩)]
      [Chunk.chunkData Option.none (some ⟨some "late", [], Option.none⟩)]
      [AEvent.blockStop 0, .blockStartTool 1 "t1" "search"]
      { toolIndex := some 0, toolContent := "", accumulatedText := "",
        textSent := false, textBlockClosed := true, inputTokens := 0,
        outputTokens := 0, hasSentStopReason := false, lastToolIndex := 1 }
      rfl rfl).2 "late" Option.none [] Option.none (by decide)⟩⟩

end Srv
